import Mathlib

/-!
Shallow embedding of the goskyr/croncert scraper core (Go) in Lean 4.

The embedding follows the Go source closely.  External collaborators
(goquery DOM queries, the `monday` locale date parser on non-numeric
layouts, `regexp`, `net/url` escaping, HTTP) are represented as oracle
function parameters or as small faithful models of the behaviour the
code actually relies on; every definition notes its source function.
-/

set_option maxRecDepth 4000

deriving instance DecidableEq for Except

namespace Croncert

/-- Mirrors Go `RegexConfig` (scraper.go): `Exp` and `Index`.  `Index` is a
Go `int`, so it is an `Int` here (it can be `-1` or any negative value). -/
structure RegexConfig where
  Exp : String
  Index : Int
deriving DecidableEq, Repr

/-- Mirrors Go `ElementLocation` (scraper.go). -/
structure ElementLocation where
  Selector : String
  NodeIndex : Int
  ChildIndex : Int
  RegexExtract : RegexConfig
  Attr : String
  MaxLength : Int
  EntireSubtree : Bool
deriving DecidableEq, Repr

/-- Mirrors Go `CoveredDateParts` (scraper.go). -/
structure CoveredDateParts where
  Day : Bool
  Month : Bool
  Year : Bool
  Time : Bool
deriving DecidableEq, Repr

/-- Mirrors Go `DateComponent` (scraper.go). -/
structure DateComponent where
  Covers : CoveredDateParts
  ElementLocation : ElementLocation
  Layout : List String
deriving DecidableEq, Repr

/-- Mirrors Go `Field` (scraper.go); the Go field `Type` is spelled `Typ`
because `Type` is reserved in Lean. -/
structure Field where
  Name : String
  Value : String
  Typ : String
  ElementLocation : ElementLocation
  OnSubpage : String
  CanBeEmpty : Bool
  Components : List DateComponent
  DateLocation : String
  DateLanguage : String
  Hide : Bool
deriving DecidableEq, Repr

/-- Mirrors Go `Filter` (scraper.go), except that the compiled regular
expression (external `regexp` package) is embedded as its matching
function `String → Bool`; regex compilation is assumed to succeed
(no claim involves a malformed filter pattern). -/
structure Filter where
  Field : String
  Regex : String → Bool
  Match : Bool

/-- A parsed timestamp as produced by the (modelled) date parser: the
calendar fields Go `time.Time` carries plus the configured zone name. -/
structure DateRec where
  year : Nat
  month : Nat
  day : Nat
  hour : Nat
  minute : Nat
  loc : String
deriving DecidableEq, Repr

/-- A value stored in an item map (`map[string]interface{}` in Go): the
scraper stores strings (text/url fields) or timestamps (date fields). -/
inductive Value where
  | str : String → Value
  | date : DateRec → Value
deriving DecidableEq, Repr

/-- Go `fmt.Sprint` on a stored value: strings print as themselves; the
rendering of a timestamp is a fixed injective textual form (its exact
Go shape is irrelevant to every claim). -/
def Value.sprint : Value → String
  | .str s => s
  | .date d =>
      toString d.year ++ "-" ++ toString d.month ++ "-" ++ toString d.day ++ " " ++
        toString d.hour ++ ":" ++ toString d.minute ++ " " ++ d.loc

/-- An item record (`map[string]interface{}`), as an association list. -/
def Item := List (String × Value)
deriving DecidableEq, Repr

/-- Map lookup `item[k]`. -/
def Item.getVal (it : Item) (k : String) : Option Value :=
  (List.find? (fun p => p.1 = k) it).map (·.2)

/-- Map assignment `item[k] = v` (unordered map: representation places the
new binding first and drops any old binding for `k`). -/
def Item.setVal (it : Item) (k : String) (v : Value) : Item :=
  (k, v) :: List.filter (fun p => ¬ p.1 = k) it

/-- Map deletion `delete(item, k)`. -/
def Item.delVal (it : Item) (k : String) : Item :=
  List.filter (fun p => ¬ p.1 = k) it

/-- Go `fmt.Sprint(item[k])`: a missing key prints as `<nil>`. -/
def sprintLookup (o : Option Value) : String :=
  match o with
  | none => "<nil>"
  | some v => v.sprint

/-- Oracle for the attribute reads `getURLString` performs on a goquery
selection: `attrOr a d` models `s.AttrOr(a, d)` (the selector-less
branch) and `findAttr sel i a` models locating node `i` of
`s.Find(sel)` and scanning its attributes for key `a` (`none` when the
node or the attribute is absent, in which case Go leaves `urlVal` empty). -/
structure UrlSel where
  attrOr : String → String → String
  findAttr : String → Int → String → Option String

/-- Oracle for one goquery selection as the extraction primitives see it:
`text` models `getTextString` on this selection (the DOM walk, regex
extraction and truncation included) and `url` carries the attribute
oracle used by `getURLString`. -/
structure Sel where
  text : ElementLocation → Except String String
  url : UrlSel

/-- Model of Go `net/url.Parse` restricted to what `getURLString` reads
(`Scheme`, `Host`, `Path`), faithful for well-formed absolute URLs of
the shape `scheme://host/path[?query]`; anything else degenerates to
empty components (the parse error is discarded by the source anyway:
`u, _ := url.Parse(baseURL)`). -/
structure GoURL where
  scheme : String
  host : String
  path : String
deriving DecidableEq, Repr

/-- Go `strings.HasPrefix`. -/
def goHasPrefix (s pre : String) : Bool :=
  pre.data.isPrefixOf s.data

/-- Go `strings.TrimSpace` (whitespace stripped from both ends). -/
def goTrimSpace (s : String) : String :=
  ⟨((s.data.dropWhile Char.isWhitespace).reverse.dropWhile Char.isWhitespace).reverse⟩

/-- Split `s` at the first occurrence of the non-empty pattern `pat`,
returning the parts before and after it, or `none` when `pat` does not
occur. -/
def splitFirstAux : List Char → List Char → Option (List Char × List Char)
  | [], _ => none
  | c :: cs, pat =>
    if pat.isPrefixOf (c :: cs) then some ([], (c :: cs).drop pat.length)
    else
      match splitFirstAux cs pat with
      | some (b, a) => some (c :: b, a)
      | none => none

/-- See `GoURL`: split at the first `://`, then the host runs to the
first `/`, and the path to the first `?`. -/
def urlParse (s : String) : GoURL :=
  match splitFirstAux s.data "://".data with
  | some (sch, rest) =>
      let host := rest.takeWhile (fun c => ¬ c = '/')
      let pathAndQuery := rest.drop host.length
      let path := pathAndQuery.takeWhile (fun c => ¬ c = '?')
      ⟨⟨sch⟩, ⟨host⟩, ⟨path⟩⟩
  | none => ⟨"", "", ""⟩

/-- The `urlVal` extraction of Go `getURLString` (scraper.go:434-447):
without a selector, `s.AttrOr(e.Attr, "")`; with one, the attribute of
node `NodeIndex` of the matched set, empty when node or attribute is
absent. -/
def rawUrlVal (e : ElementLocation) (sel : UrlSel) : String :=
  if e.Selector = "" then sel.attrOr e.Attr ""
  else
    match sel.findAttr e.Selector e.NodeIndex e.Attr with
    | some v => v
    | none => ""

/-- Mirrors Go `getURLString` (scraper.go:427-465), the extraction of
`urlVal` factored into `rawUrlVal`.  The Go function mutates `e.Attr`
through the pointer it receives; the mutation is made explicit by
returning the updated `ElementLocation` alongside the resolved URL
string. -/
def getURLString (e : ElementLocation) (sel : UrlSel) (baseURL : String) :
    String × ElementLocation :=
  let u := urlParse baseURL
  let e := if e.Attr = "" then { e with Attr := "href" } else e
  let urlVal := rawUrlVal e sel
  if urlVal = "" then ("", e)
  else
    let urlRes :=
      if goHasPrefix urlVal "http" then urlVal
      else if goHasPrefix urlVal "?" then
        u.scheme ++ "://" ++ u.host ++ u.path ++ urlVal
      else
        let base := u.scheme ++ "://" ++ u.host
        let base := if ¬ goHasPrefix urlVal "/" then base ++ "/" else base
        base ++ urlVal
    (goTrimSpace urlRes, e)

/-- Core of `replaceFirst`. -/
def replaceFirstAux (pat rep : List Char) : List Char → List Char
  | [] => []
  | c :: cs =>
    if pat.isPrefixOf (c :: cs) then rep ++ (c :: cs).drop pat.length
    else c :: replaceFirstAux pat rep cs

/-- Go `strings.Replace(s, pat, rep, 1)`: replace the first occurrence
of `pat` (non-empty in every use site) by `rep`. -/
def replaceFirst (s pat rep : String) : String :=
  ⟨replaceFirstAux pat.data rep.data s.data⟩

/-- One collected date fragment; mirrors Go `datePart` (scraper.go:313). -/
structure datePart where
  stringPart : String
  layoutParts : List String
deriving DecidableEq, Repr

/-- Mirrors Go `checkForDoubleDateParts` (scraper.go:398-412). -/
def checkForDoubleDateParts (dpOne dpTwo : CoveredDateParts) : Except String Unit :=
  if dpOne.Day && dpTwo.Day then
    .error "date parsing error: 'day' covered at least twice"
  else if dpOne.Month && dpTwo.Month then
    .error "date parsing error: 'month' covered at least twice"
  else if dpOne.Year && dpTwo.Year then
    .error "date parsing error: 'year' covered at least twice"
  else if dpOne.Time && dpTwo.Time then
    .error "date parsing error: 'time' covered at least twice"
  else .ok ()

/-- Mirrors Go `mergeDateParts` (scraper.go:414-421). -/
def mergeDateParts (dpOne dpTwo : CoveredDateParts) : CoveredDateParts :=
  ⟨dpOne.Day || dpTwo.Day, dpOne.Month || dpTwo.Month,
   dpOne.Year || dpTwo.Year, dpOne.Time || dpTwo.Time⟩

/-- Mirrors Go `hasAllDateParts` (scraper.go:423-425). -/
def hasAllDateParts (cdp : CoveredDateParts) : Bool :=
  cdp.Day && cdp.Month && cdp.Year && cdp.Time

/-- The `collect all the date parts` loop of Go `getDate`
(scraper.go:332-356): a component is only examined while not all four
parts are covered; its covers are checked against the parts covered so
far; its text is extracted (`getTextString`, here the `Sel.text`
oracle); a component whose extracted text is empty contributes neither
a fragment nor coverage. -/
def collectDateParts (sel : Sel) :
    List DateComponent → List datePart → CoveredDateParts →
    Except String (List datePart × CoveredDateParts)
  | [], acc, comb => .ok (acc, comb)
  | c :: rest, acc, comb =>
    if hasAllDateParts comb then collectDateParts sel rest acc comb
    else
      match checkForDoubleDateParts c.Covers comb with
      | .error e => .error e
      | .ok _ =>
        match sel.text c.ElementLocation with
        | .error e => .error e
        | .ok sp =>
          if sp = "" then collectDateParts sel rest acc comb
          else
            let lp := c.Layout.map (fun l => replaceFirst l "p.m." "pm")
            collectDateParts sel rest
              (acc ++ [⟨replaceFirst sp "p.m." "pm", lp⟩])
              (mergeDateParts comb c.Covers)

/-- The `adding default values where necessary` block of Go `getDate`
(scraper.go:357-370): append the current calendar year (layout `2006`)
when year is uncovered, then `20:00` (layout `15:04`) when time is
uncovered. -/
def addDefaultParts (currentYear : Nat) (combined : CoveredDateParts)
    (parts : List datePart) : List datePart :=
  let parts :=
    if !combined.Year then parts ++ [⟨toString currentYear, ["2006"]⟩] else parts
  if !combined.Time then parts ++ [⟨"20:00", ["15:04"]⟩] else parts

/-- One step of the layout cartesian product in Go `getDate`
(scraper.go:378-385): every layout so far is extended by every layout
alternative of the next fragment, plus a separating space. -/
def extendLayouts (layouts : List String) (dp : datePart) : List String :=
  layouts.flatMap (fun tlp => dp.layoutParts.map (fun lp => tlp ++ lp ++ " "))

/-- The date-time string concatenation in Go `getDate` (scraper.go:386). -/
def buildDateTimeString (parts : List datePart) : String :=
  parts.foldl (fun s dp => s ++ dp.stringPart ++ " ") ""

/-- Calendar fields being filled during a layout-driven parse; the
initial values are those of the Go zero `time.Time` (year 1, January 1,
midnight). -/
structure PartialDate where
  year : Nat
  month : Nat
  day : Nat
  hour : Nat
  minute : Nat
deriving DecidableEq, Repr

/-- Read exactly `n` decimal digits from the front of `cs`. -/
def takeDigitsAux : Nat → Nat → List Char → Option (Nat × List Char)
  | 0, acc, cs => some (acc, cs)
  | _ + 1, _, [] => none
  | n + 1, acc, c :: cs =>
      if c.isDigit then takeDigitsAux n (acc * 10 + (c.toNat - 48)) cs else none

/-- Layout-driven parsing core, modelling the external Go `time` /
`monday` parser on the purely numeric layout tokens this code base
relies on (`2006` four-digit year, `01` two-digit month, `02` two-digit
day, `15` two-digit hour, `04` two-digit minute); every other layout
character must match the input literally.  Consumes the whole layout
and returns the unconsumed input. -/
def runLayoutPartial : List Char → List Char → PartialDate →
    Option (PartialDate × List Char)
  | [], cs, pd => some (pd, cs)
  | '2' :: '0' :: '0' :: '6' :: lt, cs, pd =>
      match takeDigitsAux 4 0 cs with
      | some (v, cs') => runLayoutPartial lt cs' { pd with year := v }
      | none => none
  | '0' :: '1' :: lt, cs, pd =>
      match takeDigitsAux 2 0 cs with
      | some (v, cs') => runLayoutPartial lt cs' { pd with month := v }
      | none => none
  | '0' :: '2' :: lt, cs, pd =>
      match takeDigitsAux 2 0 cs with
      | some (v, cs') => runLayoutPartial lt cs' { pd with day := v }
      | none => none
  | '1' :: '5' :: lt, cs, pd =>
      match takeDigitsAux 2 0 cs with
      | some (v, cs') => runLayoutPartial lt cs' { pd with hour := v }
      | none => none
  | '0' :: '4' :: lt, cs, pd =>
      match takeDigitsAux 2 0 cs with
      | some (v, cs') => runLayoutPartial lt cs' { pd with minute := v }
      | none => none
  | l :: lt, c :: cs, pd =>
      if l = c then runLayoutPartial lt cs pd else none
  | _ :: _, [], _ => none

/-- Model of the external `monday.ParseInLocation` (locale-aware Go time
parsing) on numeric layouts: the locale plays no role for numeric
tokens; the configured zone is recorded in the result.  A parse
succeeds only when layout and input are consumed together. -/
def mondayParseInLocation (layout value loc locale : String) :
    Except String DateRec :=
  match runLayoutPartial layout.data value.data ⟨1, 1, 1, 0, 0⟩ with
  | some (pd, []) => .ok ⟨pd.year, pd.month, pd.day, pd.hour, pd.minute, loc⟩
  | _ =>
      .error ("parsing time \x22" ++ value ++ "\x22 as \x22" ++ layout ++
        "\x22: cannot parse " ++ locale)

/-- The Go zero `time.Time` rendered as a `DateRec` (0001-01-01 00:00
UTC): Go `getDate` returns it with a nil error when the layout list is
empty (a component declared with an empty `layout` list empties the
cartesian product, the parse loop body never runs, and `err` is still
nil from `time.LoadLocation`). -/
def zeroTime : DateRec := ⟨1, 1, 1, 0, 0, "UTC"⟩

/-- The parse-attempt loop of Go `getDate` (scraper.go:389-395): try each
assembled layout in order, return the first success, otherwise the last
error; an empty layout list falls through to `return t, err` with `t`
the zero time and `err` nil. -/
def tryParseLayouts : List String → String → String → String → Except String DateRec
  | [], _, _, _ => .ok zeroTime
  | [l], s, loc, locale => mondayParseInLocation l s loc locale
  | l :: l' :: rest, s, loc, locale =>
      match mondayParseInLocation l s loc locale with
      | .ok d => .ok d
      | .error _ => tryParseLayouts (l' :: rest) s loc locale

/-- Mirrors Go `getDate` (scraper.go:318-396).  `time.LoadLocation` is
modelled as succeeding (time-zone data is external); the zone name is
carried into the parsed result.  `currentYear` stands for
`time.Now().Year()`. -/
def getDate (currentYear : Nat) (f : Field) (sel : Sel) : Except String DateRec :=
  let loc := f.DateLocation
  let mLocale := if f.DateLanguage = "" then "de_DE" else f.DateLanguage
  match collectDateParts sel f.Components [] ⟨false, false, false, false⟩ with
  | .error e => .error e
  | .ok (parts, combined) =>
    let dateParts := addDefaultParts currentYear combined parts
    if !combined.Day || !combined.Month then
      .error "date parsing error: to generate a date at least a day and a month is needed"
    else
      let dateTimeLayouts := dateParts.foldl extendLayouts [""]
      let dateTimeString := buildDateTimeString dateParts
      let dateTimeString := replaceFirst dateTimeString "Mrz" "Mär"
      tryParseLayouts dateTimeLayouts dateTimeString loc mLocale

/-- Mirrors Go `Scraper` (scraper.go:122-134), with the anonymous
`Paginator` struct flattened into `PaginatorLocation` / `MaxPages`
(`max_pages` is a non-negative configuration count, hence `Nat`). -/
structure Scraper where
  Name : String
  URL : String
  Item : String
  ExcludeWithSelector : List String
  Fields : List Field
  Filters : List Filter
  PaginatorLocation : ElementLocation
  MaxPages : Nat
  RenderJs : Bool

/-- The filter loop state of Go `filterItem` (scraper.go:247-268):
`nrMatchTrue`, `filterMatchTrue`, `filterMatchFalse`, updated filter by
filter; a filter whose field is absent from the item is skipped. -/
def filterLoop : List Filter → Item → Nat → Bool → Bool → Nat × Bool × Bool
  | [], _, nr, fmt, fmf => (nr, fmt, fmf)
  | flt :: rest, item, nr, fmt, fmf =>
    match item.getVal flt.Field with
    | none => filterLoop rest item nr fmt fmf
    | some v =>
      if flt.Match then
        filterLoop rest item (nr + 1)
          (if flt.Regex v.sprint then true else fmt) fmf
      else
        filterLoop rest item nr fmt
          (if flt.Regex v.sprint then false else fmf)

/-- Mirrors Go `filterItem` (scraper.go:247-273); regex compilation
(which cannot fail in this embedding, see `Filter`) aside, the item is
kept iff `filterMatchTrue && filterMatchFalse` after the loop, with
`filterMatchTrue` forced when no `match=true` filter applied. -/
def filterItem (filters : List Filter) (item : Item) : Bool :=
  let r := filterLoop filters item 0 false true
  (if r.1 = 0 then true else r.2.1) && r.2.2

/-- Mirrors Go `removeHiddenFields` (scraper.go:275-282). -/
def removeHiddenFields (fields : List Field) (item : Item) : Item :=
  fields.foldl (fun it f => if f.Hide then it.delVal f.Name else it) item

/-- Result of Go `extractStringRegex`: a value, an `error`, or a runtime
panic (negative slice index). -/
inductive StrResult where
  | ok : String → StrResult
  | err : String → StrResult
  | crash : StrResult
deriving DecidableEq, Repr

/-- Mirrors Go `extractStringRegex` (scraper.go:539-562).  `findAll`
models the external `regexp` engine: `findAll exp s` is
`regexp.MustCompile(exp).FindAllString(s, -1)` (compilation is assumed
to succeed; no claim involves a malformed pattern).  An `Index` below
`-1` reaches `matchingStrings[rc.Index]` with a negative index, a Go
runtime panic, modelled as `.crash`. -/
def extractStringRegex (findAll : String → String → List String)
    (rc : RegexConfig) (s : String) : StrResult :=
  if rc.Exp = "" then .ok s
  else
    let ms := findAll rc.Exp s
    if ms.length = 0 then
      .err ("no matching strings found for regex: " ++ rc.Exp)
    else if rc.Index = -1 then .ok (ms.getLast?.getD "")
    else if (ms.length : Int) ≤ rc.Index then
      .err ("regex index out of bounds. regex '" ++ rc.Exp ++ "' gave only "
        ++ toString ms.length ++ " matches")
    else if rc.Index < 0 then .crash
    else .ok ((ms.get? rc.Index.toNat).getD "")

/-- Mirrors Go `extractField` (scraper.go:284-311).  The goquery
selection is the `Sel` oracle; `currentYear` is threaded to `getDate`.
The Go function receives `*Field` and `getURLString` may mutate the
field's `ElementLocation.Attr`, but the pointee is a per-iteration copy
(`for _, f := range c.Fields`), so discarding the updated location here
is faithful. -/
def extractField (currentYear : Nat) (f : Field) (event : Item) (sel : Sel)
    (baseURL : String) : Except String Item :=
  if f.Typ = "text" ∨ f.Typ = "" then
    match sel.text f.ElementLocation with
    | .error e => .error e
    | .ok ts =>
      if !f.CanBeEmpty && ts = "" then
        .error ("field " ++ f.Name ++ " cannot be empty")
      else .ok (event.setVal f.Name (.str ts))
  else if f.Typ = "url" then
    let url := (getURLString f.ElementLocation sel.url baseURL).1
    let url := if url = "" then baseURL else url
    .ok (event.setVal f.Name (.str url))
  else if f.Typ = "date" then
    match getDate currentYear f sel with
    | .error e => .error e
    | .ok d => .ok (event.setVal f.Name (.date d))
  else .error ("field type '" ++ f.Typ ++ "' does not exist")

/-- One item node matched by the item selector: `matchesExclude x`
models `s.Find(x).Length() > 0 || s.Is(x)` for an exclude selector `x`;
`sel` is the node's selection oracle. -/
structure ItemNode where
  matchesExclude : String → Bool
  sel : Sel

/-- A fetched-and-parsed page: its document selection (used for the
paginator and for subpage field extraction) and the nodes matched by
the scraper's item selector. -/
structure Doc where
  sel : Sel
  nodes : List ItemNode

/-- A fetcher plus document parser: `fetch url` is
`fetcher.Fetch(url)` followed by `goquery.NewDocumentFromReader`; both
failure modes surface as the error case. -/
def Fetcher := String → Except String Doc

/-- The first field loop of the per-item closure in Go `GetItems`
(scraper.go:174-188): static fields copy their value; dynamic main-page
fields (`OnSubpage` empty) go through `extractField`, whose error skips
the item. -/
def processMainFields (currentYear : Nat) (sel : Sel) (pageURL : String) :
    List Field → Item → Except String Item
  | [], item => .ok item
  | f :: rest, item =>
    if ¬ f.Value = "" then
      processMainFields currentYear sel pageURL rest
        (item.setVal f.Name (.str f.Value))
    else if f.OnSubpage = "" then
      match extractField currentYear f item sel pageURL with
      | .error e => .error e
      | .ok item' => processMainFields currentYear sel pageURL rest item'
    else processMainFields currentYear sel pageURL rest item

/-- The subpage field loop of the per-item closure in Go `GetItems`
(scraper.go:190-216): for each field with a non-empty `OnSubpage`, the
subpage URL is `fmt.Sprint(currentItem[f.OnSubpage])`; a fetch or parse
failure skips the item; extraction runs against the subpage document
with the scraper's own `URL` as base.  The per-item `subDocs` cache is
omitted: `fetch` is a pure function, so caching is observationally
irrelevant here. -/
def processSubpageFields (currentYear : Nat) (fetch : Fetcher)
    (scraperURL : String) : List Field → Item → Except String Item
  | [], item => .ok item
  | f :: rest, item =>
    if ¬ f.OnSubpage = "" ∧ f.Value = "" then
      match fetch (sprintLookup (item.getVal f.OnSubpage)) with
      | .error e => .error e
      | .ok doc =>
        match extractField currentYear f item doc.sel scraperURL with
        | .error e => .error e
        | .ok item' => processSubpageFields currentYear fetch scraperURL rest item'
    else processSubpageFields currentYear fetch scraperURL rest item

/-- The whole per-item closure of Go `GetItems` (scraper.go:166-227):
excluded nodes are skipped; a failing field skips the item (the Go code
logs and `return`s from the closure); surviving items pass the filter
and lose their hidden fields.  `none` means the node contributes no
item. -/
def processItem (currentYear : Nat) (fetch : Fetcher) (c : Scraper)
    (pageURL : String) (node : ItemNode) : Option Item :=
  if c.ExcludeWithSelector.any node.matchesExclude then none
  else
    match processMainFields currentYear node.sel pageURL c.Fields [] with
    | .error _ => none
    | .ok item =>
      match processSubpageFields currentYear fetch c.URL c.Fields item with
      | .error _ => none
      | .ok item =>
        if filterItem c.Filters item then
          some (removeHiddenFields c.Fields item)
        else none

/-- The page loop of Go `GetItems` (scraper.go:155-244), fuel-indexed
because the Go loop need not terminate (`maxPages == 0` with pages that
always link onward): `none` means the fuel ran out, i.e. the Go loop is
still running.  State mirrors the Go locals: current page URL, the
paginator location (mutated across iterations by `getURLString`'s
attribute defaulting, since the method receiver is one copy per call),
`currentPage`, and the collected items; `done` counts pages
successfully fetched and processed.  A fetch or parse error returns the
items collected so far together with the error. -/
def getItemsLoop (currentYear : Nat) (fetch : Fetcher) (c : Scraper) :
    Nat → String → ElementLocation → Nat → Nat → List Item →
    Option (List Item × Option String × Nat)
  | 0, _, _, _, _, _ => none
  | fuel + 1, pageURL, pagLoc, currentPage, done, acc =>
    match fetch pageURL with
    | .error e => some (acc, some e, done)
    | .ok doc =>
      let acc := acc ++ doc.nodes.filterMap (processItem currentYear fetch c pageURL)
      let r := getURLString pagLoc doc.sel.url pageURL
      if ¬ r.1 = "" ∧ (currentPage + 1 < c.MaxPages ∨ c.MaxPages = 0) then
        getItemsLoop currentYear fetch c fuel r.1 r.2 (currentPage + 1) (done + 1) acc
      else some (acc, none, done + 1)

/-- Mirrors Go `GetItems` (scraper.go:138-245) from its initial state. -/
def GetItems (currentYear : Nat) (fetch : Fetcher) (c : Scraper) (fuel : Nat) :
    Option (List Item × Option String × Nat) :=
  getItemsLoop currentYear fetch c fuel c.URL c.PaginatorLocation 0 0 []

/-- An item as the API sink reads it (output/api.go): its `sourceUrl`
string and its `date` timestamp, the latter represented by its
UTC-rendered form `firstDate.UTC().Format("2006-01-02 15:04")` (the
UTC conversion and formatting are the external `time` package). -/
structure ApiItem where
  sourceUrl : String
  dateFmt : String
deriving DecidableEq, Repr

/-- An HTTP request the API sink issues.  A `delete` records the raw
URL it was sent to plus the source and datetime that URL was built
from; a `post` records the JSON-encoded batch. -/
inductive HttpReq where
  | delete : String → String → String → HttpReq
  | post : List ApiItem → HttpReq
deriving DecidableEq, Repr

/-- The DELETE URL built in Go `Write` (output/api.go:52); `esc` models
the external `url.QueryEscape`. -/
def mkDeleteURL (esc : String → String) (apiURL src datetime : String) : String :=
  apiURL ++ "?sourceUrl=" ++ esc src ++ "&datetime=" ++ esc datetime

/-- The per-item DELETE block of Go `APIWriter.Write`
(output/api.go:44-67): a source seen for the first time gets one
DELETE keyed by the source and the item's (UTC-formatted) date; a
non-200 status or network error is fatal (`.error` carries the final
trace); an already-deleted source passes through. -/
def apiDeleteStep (respond : HttpReq → Option Nat) (esc : String → String)
    (apiURL : String) (item : ApiItem) (deleted : List String)
    (trace : List HttpReq) :
    Except (List HttpReq) (List String × List HttpReq) :=
  if deleted.contains item.sourceUrl then .ok (deleted, trace)
  else
    let req := HttpReq.delete
      (mkDeleteURL esc apiURL item.sourceUrl item.dateFmt)
      item.sourceUrl item.dateFmt
    match respond req with
    | none => .error (trace ++ [req])
    | some st =>
      if st = 200 then .ok (item.sourceUrl :: deleted, trace ++ [req])
      else .error (trace ++ [req])

/-- The batch-flush block of Go `APIWriter.Write` plus `postBatch`
(output/api.go:68-72, 79-102): a batch that has reached 100 items is
POSTed and reset; a non-201 status or network error is fatal. -/
def apiPostStep (respond : HttpReq → Option Nat) (batch : List ApiItem)
    (trace : List HttpReq) :
    Except (List HttpReq) (List ApiItem × List HttpReq) :=
  if batch.length = 100 then
    let req := HttpReq.post batch
    match respond req with
    | none => .error (trace ++ [req])
    | some st =>
      if st = 201 then .ok ([], trace ++ [req]) else .error (trace ++ [req])
  else .ok (batch, trace)

/-- The item loop of Go `APIWriter.Write` plus `postBatch`
(output/api.go:27-102), as a trace-producing function.  `respond` is
the HTTP client: `none` is a network error, `some st` a response with
status `st`.  The returned `Bool` is `true` when the sink died by
`log.Fatal` (network error, DELETE status other than 200, POST status
other than 201).  State mirrors the Go locals `deletedSources`,
`batch`, plus the request trace; the channel's remaining closure POSTs
whatever batch is left (even an empty one). -/
def apiWriteLoop (respond : HttpReq → Option Nat) (esc : String → String)
    (apiURL : String) :
    List ApiItem → List String → List ApiItem → List HttpReq →
    List HttpReq × Bool
  | [], _, batch, trace =>
    let req := HttpReq.post batch
    match respond req with
    | none => (trace ++ [req], true)
    | some st => (trace ++ [req], ¬ st = 201)
  | item :: rest, deleted, batch, trace =>
    match apiDeleteStep respond esc apiURL item deleted trace with
    | .error tr => (tr, true)
    | .ok (deleted', trace') =>
      match apiPostStep respond (batch ++ [item]) trace' with
      | .error tr => (tr, true)
      | .ok (batch', trace'') =>
        apiWriteLoop respond esc apiURL rest deleted' batch' trace''

/-- Go `APIWriter.Write` run from its initial state over a closed item
channel delivering `items` in order. -/
def apiWrite (respond : HttpReq → Option Nat) (esc : String → String)
    (apiURL : String) (items : List ApiItem) : List HttpReq × Bool :=
  apiWriteLoop respond esc apiURL items [] [] []

/-- The items POSTed by a request trace, in order. -/
def postedItems (tr : List HttpReq) : List ApiItem :=
  tr.flatMap fun r =>
    match r with
    | .post b => b
    | _ => []

/-- The DELETE requests of a trace keyed by source `s`. -/
def deletesFor (s : String) (tr : List HttpReq) : List HttpReq :=
  tr.filter fun r =>
    match r with
    | .delete _ src _ => src = s
    | _ => false

/-- The response a completed run must have received for a request:
200 for a DELETE, 201 for a POST. -/
def reqOK (respond : HttpReq → Option Nat) (r : HttpReq) : Prop :=
  match r with
  | .delete _ _ _ => respond r = some 200
  | .post _ => respond r = some 201

/-- An HTTP client that accepts everything. -/
def respondOK : HttpReq → Option Nat := fun r =>
  match r with
  | .delete _ _ _ => some 200
  | .post _ => some 201

/-- An HTTP client whose every response is 500. -/
def respondBad : HttpReq → Option Nat := fun _ => some 500

/-- Three items over two sources, the first source appearing twice. -/
def itemsW : List ApiItem := [⟨"s1", "d1"⟩, ⟨"s1", "d2"⟩, ⟨"s2", "d3"⟩]

/-- Every POST of the trace is preceded by a DELETE for the source of
every item it carries. -/
def delBeforePost (tr : List HttpReq) : Prop :=
  ∀ (i : Nat) (b : List ApiItem), tr[i]? = some (HttpReq.post b) →
    ∀ it ∈ b, ∃ j, j < i ∧ ∃ u d, tr[j]? = some (HttpReq.delete u it.sourceUrl d)

/-! Concrete inputs used by the example theorems, counterexamples and
witnesses below. -/

/-- An `ElementLocation` with every component at its Go zero value. -/
def elDef : ElementLocation := ⟨"", 0, 0, ⟨"", 0⟩, "", 0, false⟩

/-- A `UrlSel` whose every attribute read yields `v`. -/
def mkUrlSel (v : String) : UrlSel := ⟨fun _ _ => v, fun _ _ _ => some v⟩

/-- A selection carrying no URLs and universal empty text. -/
def emptySel : Sel := ⟨fun _ => .ok "", ⟨fun _ _ => "", fun _ _ _ => none⟩⟩

/-- Selection for the spec's date-assembly example: selector `d` holds
`12.04`, selector `t` holds `18:30`. -/
def exSel : Sel :=
  { text := fun e =>
      if e.Selector = "d" then .ok "12.04"
      else if e.Selector = "t" then .ok "18:30"
      else .ok ""
    url := ⟨fun _ _ => "", fun _ _ _ => none⟩ }

/-- The spec's date-assembly example field: a `day+month` component with
layout `02.01` and a `time` component with layout `15:04`, no year
component, zone `Europe/Berlin`. -/
def exField : Field :=
  { Name := "date", Value := "", Typ := "date", ElementLocation := elDef,
    OnSubpage := "", CanBeEmpty := false,
    Components :=
      [ ⟨⟨true, true, false, false⟩, { elDef with Selector := "d" }, ["02.01"]⟩,
        ⟨⟨false, false, false, true⟩, { elDef with Selector := "t" }, ["15:04"]⟩ ],
    DateLocation := "Europe/Berlin", DateLanguage := "", Hide := false }

/-- A date field with two components that both cover `day`. -/
def cexField : Field :=
  { exField with Components :=
      [ ⟨⟨true, false, false, false⟩, { elDef with Selector := "d1" }, ["02"]⟩,
        ⟨⟨true, false, false, false⟩, { elDef with Selector := "d2" }, ["02"]⟩ ] }

/-- Selection under which the first day component of `cexField` extracts
empty text and the second extracts `05`. -/
def cexSel : Sel :=
  { text := fun e => if e.Selector = "d2" then .ok "05" else .ok ""
    url := ⟨fun _ _ => "", fun _ _ _ => none⟩ }

/-- Selection under which both day components of `cexField` extract
non-empty text. -/
def posSel : Sel :=
  { text := fun e => if e.Selector = "d1" then .ok "03" else .ok "05"
    url := ⟨fun _ _ => "", fun _ _ _ => none⟩ }

/-- A date field with a single time-covering component (day and month
never covered). -/
def timeOnlyField : Field :=
  { exField with Components :=
      [ ⟨⟨false, false, false, true⟩, { elDef with Selector := "t" }, ["15:04"]⟩ ] }

/-- A regex oracle with exactly the three matches of the spec example. -/
def findAll3 : String → String → List String := fun _ _ => ["a1", "a2", "a3"]

/-- A document with no item nodes whose every page links onward to
`http://n`. -/
def docW : Doc := ⟨⟨fun _ => .ok "", mkUrlSel "http://n"⟩, []⟩

/-- A fetcher for which every page is `docW`. -/
def fetchW : Fetcher := fun _ => .ok docW

/-- A document with no item nodes and no next-page link. -/
def docEnd : Doc := ⟨emptySel, []⟩

/-- A fetcher for which every page is `docEnd`. -/
def fetchEnd : Fetcher := fun _ => .ok docEnd

/-- A fetcher for which every fetch fails. -/
def fetchErr : Fetcher := fun _ => .error "connection refused"

/-- A minimal scraper with `maxPages = 2` and no fields. -/
def cfgW : Scraper := ⟨"s", "http://base", "div", [], [], [], elDef, 2, false⟩

/-- A scraper excluding nodes matched by selector `x`. -/
def cfgX : Scraper := ⟨"s", "http://base", "div", ["x"], [], [], elDef, 0, false⟩

/-- A node matched by every exclude selector. -/
def badNode : ItemNode := ⟨fun _ => true, emptySel⟩

/-- A node matched by no exclude selector. -/
def goodNode : ItemNode := ⟨fun _ => false, emptySel⟩

/-- A subpage text field reading selector-less text from the document
referenced by the `url` field. -/
def subField : Field :=
  { Name := "detail", Value := "", Typ := "text", ElementLocation := elDef,
    OnSubpage := "url", CanBeEmpty := true, Components := [],
    DateLocation := "", DateLanguage := "", Hide := false }

/-- A `match=true` filter on field `a` whose regex never matches. -/
def gNever : Filter := ⟨"a", fun _ => false, true⟩

/-- An item with a single field `a` of value `x`. -/
def itemA : Item := [("a", Value.str "x")]

/-- A required (`canBeEmpty = false`) main-page text field. -/
def titleField : Field :=
  { Name := "title", Value := "", Typ := "text", ElementLocation := elDef,
    OnSubpage := "", CanBeEmpty := false, Components := [],
    DateLocation := "", DateLanguage := "", Hide := false }

/-- A node whose every text extraction yields `hello`. -/
def nodeT : ItemNode := ⟨fun _ => false, ⟨fun _ => .ok "hello", ⟨fun _ _ => "", fun _ _ _ => none⟩⟩⟩

/-- A single-node page with no next-page link. -/
def docT : Doc := ⟨emptySel, [nodeT]⟩

/-- A fetcher for which every page is `docT`. -/
def fetchT : Fetcher := fun _ => .ok docT

/-- A scraper with the single required text field `title`. -/
def cfgT : Scraper := ⟨"s", "http://base", "div", [], [titleField], [], elDef, 0, false⟩

/-! Helper lemmas shared by several developments. -/

theorem getURLString_snd (e : ElementLocation) (sel : UrlSel) (base : String) :
    (getURLString e sel base).2
      = if e.Attr = "" then { e with Attr := "href" } else e := by
  by_cases h : e.Attr = "" <;>
    · simp only [getURLString, if_pos, if_neg, h, ite_true, ite_false]
      split <;> rfl

theorem matchOption_eq_true (o : Option Value) (f : String → Bool) :
    (match o with
     | some v => f v.sprint
     | none => false) = true ↔ ∃ v, o = some v ∧ f v.sprint = true := by
  cases o <;> simp

theorem filterLoop_spec (item : Item) :
    ∀ (filters : List Filter) (nr : Nat) (fmt fmf : Bool),
    filterLoop filters item nr fmt fmf =
      (nr + filters.countP (fun flt => flt.Match && (item.getVal flt.Field).isSome),
       fmt || filters.any (fun flt => flt.Match &&
         (match item.getVal flt.Field with
          | some v => flt.Regex v.sprint
          | none => false)),
       fmf && filters.all (fun flt => flt.Match ||
         (match item.getVal flt.Field with
          | some v => !flt.Regex v.sprint
          | none => true))) := by
  intro filters
  induction filters with
  | nil => intro nr fmt fmf; simp [filterLoop]
  | cons flt rest ih =>
    intro nr fmt fmf
    cases hv : item.getVal flt.Field with
    | none =>
      rw [filterLoop, hv]
      dsimp only
      rw [ih]
      simp [List.countP_cons, hv]
    | some v =>
      cases hM : flt.Match with
      | false =>
        rw [filterLoop, hv]
        dsimp only
        rw [if_neg (by simp [hM]), ih]
        simp only [List.countP_cons, List.any_cons, List.all_cons, hv, hM,
          Prod.mk.injEq]
        refine ⟨by simp, by simp, ?_⟩
        cases flt.Regex v.sprint <;> cases fmf <;> simp
      | true =>
        rw [filterLoop, hv]
        dsimp only
        rw [if_pos (by simp [hM]), ih]
        simp only [List.countP_cons, List.any_cons, List.all_cons, hv, hM,
          Prod.mk.injEq]
        refine ⟨by simp; omega, ?_, by simp⟩
        cases flt.Regex v.sprint <;> cases fmt <;> simp

theorem find?_filter_ne (it : List (String × Value)) (k k' : String)
    (h : ¬ k' = k) :
    List.find? (fun p => p.1 = k') (List.filter (fun p => ¬ p.1 = k) it)
      = List.find? (fun p => p.1 = k') it := by
  induction it with
  | nil => rfl
  | cons p rest ih =>
    by_cases hk : p.1 = k
    · have hp : ¬ p.1 = k' := by rw [hk]; intro hh; exact h hh.symm
      rw [List.filter_cons_of_neg (by simpa using hk),
        List.find?_cons_of_neg _ (by simpa using hp), ih]
    · rw [List.filter_cons_of_pos (by simpa using hk)]
      by_cases hp : p.1 = k'
      · rw [List.find?_cons_of_pos _ (by simpa using hp),
          List.find?_cons_of_pos _ (by simpa using hp)]
      · rw [List.find?_cons_of_neg _ (by simpa using hp),
          List.find?_cons_of_neg _ (by simpa using hp), ih]

theorem getVal_setVal_self (it : Item) (k : String) (v : Value) :
    (it.setVal k v).getVal k = some v := by
  simp only [Item.setVal, Item.getVal]
  rw [List.find?_cons_of_pos _ (by simp)]
  rfl

theorem getVal_setVal_ne (it : Item) (k k' : String) (v : Value)
    (h : ¬ k' = k) :
    (it.setVal k v).getVal k' = it.getVal k' := by
  simp only [Item.setVal, Item.getVal]
  rw [List.find?_cons_of_neg _ (by simp; intro hh; exact h hh.symm),
    find?_filter_ne it k k' h]

theorem getVal_delVal (it : Item) (k k' : String) :
    (it.delVal k).getVal k' = if k' = k then none else it.getVal k' := by
  by_cases h : k' = k
  · rw [if_pos h]
    subst h
    simp only [Item.delVal, Item.getVal]
    rw [List.find?_eq_none.mpr]
    · rfl
    · intro p hp
      have := List.of_mem_filter hp
      simpa using this
  · rw [if_neg h]
    simp only [Item.delVal, Item.getVal]
    rw [find?_filter_ne it k k' h]

theorem extractField_text_ok (currentYear : Nat) (f : Field) (item : Item)
    (sel : Sel) (base : String) (item' : Item)
    (hty : f.Typ = "text" ∨ f.Typ = "") (hce : f.CanBeEmpty = false)
    (h : extractField currentYear f item sel base = .ok item') :
    ∃ ts, ¬ ts = "" ∧ item' = item.setVal f.Name (.str ts) := by
  unfold extractField at h
  rw [if_pos hty] at h
  cases htext : sel.text f.ElementLocation with
  | error e => rw [htext] at h; simp at h
  | ok ts =>
    rw [htext] at h
    by_cases hempty : ts = ""
    · simp [hce, hempty] at h
    · simp only [hce, hempty] at h
      simp at h
      exact ⟨ts, hempty, h.symm⟩

theorem extractField_preserve (currentYear : Nat) (f : Field) (item : Item)
    (sel : Sel) (base : String) (item' : Item)
    (h : extractField currentYear f item sel base = .ok item')
    (k : String) (hk : ¬ k = f.Name) :
    item'.getVal k = item.getVal k := by
  unfold extractField at h
  by_cases hty : f.Typ = "text" ∨ f.Typ = ""
  · rw [if_pos hty] at h
    cases htext : sel.text f.ElementLocation with
    | error e => rw [htext] at h; simp at h
    | ok ts =>
      rw [htext] at h
      dsimp only at h
      split at h
      · simp at h
      · rw [← Except.ok.inj h, getVal_setVal_ne _ _ _ _ hk]
  · rw [if_neg hty] at h
    by_cases hurl : f.Typ = "url"
    · rw [if_pos hurl] at h
      rw [← Except.ok.inj h, getVal_setVal_ne _ _ _ _ hk]
    · rw [if_neg hurl] at h
      by_cases hdate : f.Typ = "date"
      · rw [if_pos hdate] at h
        cases hd : getDate currentYear f sel with
        | error e => rw [hd] at h; simp at h
        | ok d => rw [hd] at h; rw [← Except.ok.inj h, getVal_setVal_ne _ _ _ _ hk]
      · rw [if_neg hdate] at h; simp at h

theorem processMainFields_preserve (currentYear : Nat) (sel : Sel) (purl : String) :
    ∀ (fields : List Field) (item item' : Item) (k : String),
    processMainFields currentYear sel purl fields item = .ok item' →
    (∀ g ∈ fields, ¬ g.Name = k) →
    item'.getVal k = item.getVal k := by
  intro fields
  induction fields with
  | nil =>
    intro item item' k h hg
    rw [processMainFields] at h
    rw [← Except.ok.inj h]
  | cons f rest ih =>
    intro item item' k h hg
    have hk : ¬ k = f.Name := fun hh => hg f (List.mem_cons_self f rest) hh.symm
    have hg' : ∀ g ∈ rest, ¬ g.Name = k :=
      fun g hgr => hg g (List.mem_cons_of_mem f hgr)
    rw [processMainFields] at h
    by_cases hv : ¬ f.Value = ""
    · rw [if_pos hv] at h
      rw [ih _ _ k h hg', getVal_setVal_ne _ _ _ _ hk]
    · rw [if_neg hv] at h
      by_cases hs : f.OnSubpage = ""
      · rw [if_pos hs] at h
        cases hext : extractField currentYear f item sel purl with
        | error e => rw [hext] at h; simp at h
        | ok item₁ =>
          rw [hext] at h
          rw [ih _ _ k h hg', extractField_preserve _ _ _ _ _ _ hext k hk]
      · rw [if_neg hs] at h
        exact ih _ _ k h hg'

theorem processMainFields_est (currentYear : Nat) (sel : Sel) (purl : String) :
    ∀ (fields : List Field) (item item' : Item) (f : Field),
    processMainFields currentYear sel purl fields item = .ok item' →
    f ∈ fields →
    List.Nodup (fields.map Field.Name) →
    f.Value = "" → f.OnSubpage = "" → (f.Typ = "text" ∨ f.Typ = "") →
    f.CanBeEmpty = false →
    ∃ ts, ¬ ts = "" ∧ item'.getVal f.Name = some (.str ts) := by
  intro fields
  induction fields with
  | nil => intro item item' f h hin; exact absurd hin (List.not_mem_nil f)
  | cons g rest ih =>
    intro item item' f h hin hnod hval hsub hty hce
    have hnod' : List.Nodup (rest.map Field.Name) :=
      (List.nodup_cons.mp (by simpa using hnod)).2
    rw [processMainFields] at h
    rcases List.mem_cons.mp hin with hfg | hfr
    · subst hfg
      rw [if_neg (by simp [hval])] at h
      rw [if_pos hsub] at h
      cases hext : extractField currentYear f item sel purl with
      | error e => rw [hext] at h; simp at h
      | ok item₁ =>
        rw [hext] at h
        obtain ⟨ts, hts, hset⟩ := extractField_text_ok _ _ _ _ _ _ hty hce hext
        refine ⟨ts, hts, ?_⟩
        have hn : f.Name ∉ rest.map Field.Name :=
          (List.nodup_cons.mp (by simpa using hnod)).1
        have hpres : item'.getVal f.Name = item₁.getVal f.Name := by
          apply processMainFields_preserve _ _ _ rest item₁ item' f.Name h
          intro g' hg' hh
          exact hn (hh ▸ List.mem_map_of_mem Field.Name hg')
        rw [hpres, hset, getVal_setVal_self]
    · by_cases hgv : ¬ g.Value = ""
      · rw [if_pos hgv] at h
        exact ih _ _ f h hfr hnod' hval hsub hty hce
      · rw [if_neg hgv] at h
        by_cases hgs : g.OnSubpage = ""
        · rw [if_pos hgs] at h
          cases hext : extractField currentYear g item sel purl with
          | error e => rw [hext] at h; simp at h
          | ok item₁ =>
            rw [hext] at h
            exact ih _ _ f h hfr hnod' hval hsub hty hce
        · rw [if_neg hgs] at h
          exact ih _ _ f h hfr hnod' hval hsub hty hce

theorem processSubpageFields_preserve (currentYear : Nat) (fetch : Fetcher)
    (surl : String) :
    ∀ (fields : List Field) (item item' : Item) (k : String),
    processSubpageFields currentYear fetch surl fields item = .ok item' →
    (∀ g ∈ fields, (¬ g.OnSubpage = "" ∧ g.Value = "") → ¬ g.Name = k) →
    item'.getVal k = item.getVal k := by
  intro fields
  induction fields with
  | nil =>
    intro item item' k h hg
    rw [processSubpageFields] at h
    rw [← Except.ok.inj h]
  | cons f rest ih =>
    intro item item' k h hg
    have hg' : ∀ g ∈ rest, (¬ g.OnSubpage = "" ∧ g.Value = "") → ¬ g.Name = k :=
      fun g hgr => hg g (List.mem_cons_of_mem f hgr)
    rw [processSubpageFields] at h
    by_cases hc : ¬ f.OnSubpage = "" ∧ f.Value = ""
    · rw [if_pos hc] at h
      cases hf : fetch (sprintLookup (item.getVal f.OnSubpage)) with
      | error e => rw [hf] at h; simp at h
      | ok doc =>
        rw [hf] at h
        dsimp only at h
        cases hext : extractField currentYear f item doc.sel surl with
        | error e => rw [hext] at h; simp at h
        | ok item₁ =>
          rw [hext] at h
          have hk : ¬ k = f.Name :=
            fun hh => hg f (List.mem_cons_self f rest) hc hh.symm
          rw [ih _ _ k h hg', extractField_preserve _ _ _ _ _ _ hext k hk]
    · rw [if_neg hc] at h
      exact ih _ _ k h hg'

theorem processSubpageFields_est (currentYear : Nat) (fetch : Fetcher)
    (surl : String) :
    ∀ (fields : List Field) (item item' : Item) (f : Field),
    processSubpageFields currentYear fetch surl fields item = .ok item' →
    f ∈ fields →
    List.Nodup (fields.map Field.Name) →
    f.Value = "" → ¬ f.OnSubpage = "" → (f.Typ = "text" ∨ f.Typ = "") →
    f.CanBeEmpty = false →
    ∃ ts, ¬ ts = "" ∧ item'.getVal f.Name = some (.str ts) := by
  intro fields
  induction fields with
  | nil => intro item item' f h hin; exact absurd hin (List.not_mem_nil f)
  | cons g rest ih =>
    intro item item' f h hin hnod hval hsub hty hce
    have hnod' : List.Nodup (rest.map Field.Name) :=
      (List.nodup_cons.mp (by simpa using hnod)).2
    rw [processSubpageFields] at h
    rcases List.mem_cons.mp hin with hfg | hfr
    · subst hfg
      rw [if_pos ⟨hsub, hval⟩] at h
      cases hf : fetch (sprintLookup (item.getVal f.OnSubpage)) with
      | error e => rw [hf] at h; simp at h
      | ok doc =>
        rw [hf] at h
        dsimp only at h
        cases hext : extractField currentYear f item doc.sel surl with
        | error e => rw [hext] at h; simp at h
        | ok item₁ =>
          rw [hext] at h
          obtain ⟨ts, hts, hset⟩ := extractField_text_ok _ _ _ _ _ _ hty hce hext
          refine ⟨ts, hts, ?_⟩
          have hn : f.Name ∉ rest.map Field.Name :=
            (List.nodup_cons.mp (by simpa using hnod)).1
          have hpres : item'.getVal f.Name = item₁.getVal f.Name := by
            apply processSubpageFields_preserve _ _ _ rest item₁ item' f.Name h
            intro g' hg' _ hh
            exact hn (hh ▸ List.mem_map_of_mem Field.Name hg')
          rw [hpres, hset, getVal_setVal_self]
    · by_cases hc : ¬ g.OnSubpage = "" ∧ g.Value = ""
      · rw [if_pos hc] at h
        cases hf : fetch (sprintLookup (item.getVal g.OnSubpage)) with
        | error e => rw [hf] at h; simp at h
        | ok doc =>
          rw [hf] at h
          dsimp only at h
          cases hext : extractField currentYear g item doc.sel surl with
          | error e => rw [hext] at h; simp at h
          | ok item₁ =>
            rw [hext] at h
            exact ih _ _ f h hfr hnod' hval hsub hty hce
      · rw [if_neg hc] at h
        exact ih _ _ f h hfr hnod' hval hsub hty hce

theorem removeHiddenFields_getVal (fields : List Field) :
    ∀ (item : Item) (k : String),
    (removeHiddenFields fields item).getVal k = item.getVal k ∨
    (removeHiddenFields fields item).getVal k = none := by
  induction fields with
  | nil => intro item k; exact Or.inl rfl
  | cons f rest ih =>
    intro item k
    have hstep : removeHiddenFields (f :: rest) item
        = removeHiddenFields rest (if f.Hide then item.delVal f.Name else item) := by
      simp [removeHiddenFields, List.foldl_cons]
    rw [hstep]
    rcases ih (if f.Hide then item.delVal f.Name else item) k with h | h
    · rw [h]
      by_cases hh : f.Hide
      · rw [if_pos hh, getVal_delVal]
        by_cases hk : k = f.Name
        · rw [if_pos hk]; exact Or.inr rfl
        · rw [if_neg hk]; exact Or.inl rfl
      · rw [if_neg hh]; exact Or.inl rfl
    · exact Or.inr h

theorem processItem_no_empty (currentYear : Nat) (fetch : Fetcher) (c : Scraper)
    (purl : String) (node : ItemNode) (it : Item) (f : Field)
    (h : processItem currentYear fetch c purl node = some it)
    (hin : f ∈ c.Fields) (hnod : List.Nodup (c.Fields.map Field.Name))
    (hval : f.Value = "") (hty : f.Typ = "text" ∨ f.Typ = "")
    (hce : f.CanBeEmpty = false) :
    ¬ it.getVal f.Name = some (.str "") := by
  unfold processItem at h
  by_cases hexc : c.ExcludeWithSelector.any node.matchesExclude = true
  · rw [if_pos hexc] at h; simp at h
  · rw [if_neg hexc] at h
    cases hmain : processMainFields currentYear node.sel purl c.Fields [] with
    | error e => rw [hmain] at h; simp at h
    | ok item₁ =>
      rw [hmain] at h
      dsimp only at h
      cases hsub : processSubpageFields currentYear fetch c.URL c.Fields item₁ with
      | error e => rw [hsub] at h; simp at h
      | ok item₂ =>
        rw [hsub] at h
        dsimp only at h
        by_cases hfil : filterItem c.Filters item₂ = true
        · rw [if_pos hfil] at h
          have hit : it = removeHiddenFields c.Fields item₂ := (Option.some.inj h).symm
          have hv2 : ∃ ts, ¬ ts = "" ∧ item₂.getVal f.Name = some (.str ts) := by
            by_cases hos : f.OnSubpage = ""
            · obtain ⟨ts, hts, hv1⟩ :=
                processMainFields_est currentYear node.sel purl c.Fields _ _ f
                  hmain hin hnod hval hos hty hce
              refine ⟨ts, hts, ?_⟩
              have hpres : item₂.getVal f.Name = item₁.getVal f.Name := by
                apply processSubpageFields_preserve currentYear fetch c.URL
                  c.Fields item₁ item₂ f.Name hsub
                intro g hg hgc hh
                have hgf : g = f :=
                  List.inj_on_of_nodup_map hnod hg hin hh
                rw [hgf] at hgc
                exact hgc.1 hos
              rw [hpres]
              exact hv1
            · exact processSubpageFields_est currentYear fetch c.URL c.Fields _ _ f
                hsub hin hnod hval hos hty hce
          obtain ⟨ts, hts, hv2⟩ := hv2
          rw [hit]
          rcases removeHiddenFields_getVal c.Fields item₂ f.Name with hr | hr
          · rw [hr, hv2]
            simpa using hts
          · rw [hr]
            simp
        · rw [if_neg hfil] at h; simp at h

theorem getItemsLoop_mem (currentYear : Nat) (fetch : Fetcher) (c : Scraper) :
    ∀ (fuel : Nat) (u : String) (pl : ElementLocation) (cp done : Nat)
      (acc : List Item) (res : List Item × Option String × Nat),
    getItemsLoop currentYear fetch c fuel u pl cp done acc = some res →
    ∀ it ∈ res.1, it ∈ acc ∨
      ∃ purl node, processItem currentYear fetch c purl node = some it := by
  intro fuel
  induction fuel with
  | zero => intro u pl cp done acc res h; simp [getItemsLoop] at h
  | succ n ih =>
    intro u pl cp done acc res h it hit
    rw [getItemsLoop] at h
    cases hf : fetch u with
    | error e =>
      rw [hf] at h
      have hres : res = (acc, some e, done) := (Option.some.inj h).symm
      rw [hres] at hit
      exact Or.inl hit
    | ok doc =>
      rw [hf] at h
      dsimp only at h
      split at h
      · rcases ih _ _ _ _ _ _ h it hit with hin | hex
        · rcases List.mem_append.mp hin with h1 | h2
          · exact Or.inl h1
          · obtain ⟨nodeN, hn, hp⟩ := List.mem_filterMap.mp h2
            exact Or.inr ⟨u, nodeN, hp⟩
        · exact Or.inr hex
      · have hres :
            res = (acc ++ doc.nodes.filterMap (processItem currentYear fetch c u),
              none, done + 1) := (Option.some.inj h).symm
        rw [hres] at hit
        rcases List.mem_append.mp hit with h1 | h2
        · exact Or.inl h1
        · obtain ⟨nodeN, hn, hp⟩ := List.mem_filterMap.mp h2
          exact Or.inr ⟨u, nodeN, hp⟩

/-- C10: calling `getURLString` with an `ElementLocation` whose `Attr`
is empty mutates the location passed by reference, permanently setting
`Attr` to `"href"` while leaving every other field unchanged; the call
itself and every subsequent use of the same location therefore read the
`href` attribute. -/
theorem C10_getURLString_attr_mutation (e : ElementLocation) (sel : UrlSel)
    (base : String) (h : e.Attr = "") :
    (getURLString e sel base).2 = { e with Attr := "href" } ∧
    (getURLString e sel base).1
      = (getURLString { e with Attr := "href" } sel base).1 ∧
    getURLString (getURLString e sel base).2 sel base
      = getURLString { e with Attr := "href" } sel base := by
  have h2 : (getURLString e sel base).2 = { e with Attr := "href" } := by
    rw [getURLString_snd, if_pos h]
  have h1 : getURLString e sel base = getURLString { e with Attr := "href" } sel base := by
    unfold getURLString
    simp [h]
  exact ⟨h2, by rw [h1], by rw [h2]⟩

/-- C10 witness: instantiation at a concrete location with empty
`Attr`. -/
theorem C10_getURLString_attr_mutation_witness :
    (getURLString elDef (mkUrlSel "x") "https://x.test/a").2
      = { elDef with Attr := "href" } :=
  (C10_getURLString_attr_mutation elDef (mkUrlSel "x") "https://x.test/a" rfl).1

/-- C4 counterexample: a raw value starting with the scheme `ftp` is
not passed through unchanged; it is treated as a relative path and
joined to the base's scheme and host. -/
theorem C4_schemePassthrough_cex :
    (getURLString elDef (mkUrlSel "ftp://y.test/z") "https://x.test/a/b").1
      = "https://x.test/ftp://y.test/z" ∧
    ¬ (getURLString elDef (mkUrlSel "ftp://y.test/z") "https://x.test/a/b").1
      = "ftp://y.test/z" := by
  constructor <;> decide

/-- C4 (amended): URL resolution passes a raw value through (modulo
whitespace trimming) exactly when it starts with the literal prefix
`http` (hence http/https URLs, but not other schemes); a value starting
with `?` is appended to the base's scheme+host+path; any other value is
joined to scheme+host, with a separating slash inserted only when the
value does not already start with one; an empty raw value resolves to
the empty string, which for a url-type field falls back to the page
URL, so a url field is never empty.  The spec's concrete examples
evaluate as stated. -/
theorem C4_urlNormalization_amended :
    (∀ (e : ElementLocation) (sel : UrlSel) (base v : String),
      rawUrlVal (getURLString e sel base).2 sel = v →
      ((v = "" → (getURLString e sel base).1 = "") ∧
       (goHasPrefix v "http" = true → ¬ v = "" →
         (getURLString e sel base).1 = goTrimSpace v) ∧
       (goHasPrefix v "http" = false → goHasPrefix v "?" = true → ¬ v = "" →
         (getURLString e sel base).1 =
           goTrimSpace ((urlParse base).scheme ++ "://" ++ (urlParse base).host
             ++ (urlParse base).path ++ v)) ∧
       (goHasPrefix v "http" = false → goHasPrefix v "?" = false →
         goHasPrefix v "/" = true → ¬ v = "" →
         (getURLString e sel base).1 =
           goTrimSpace ((urlParse base).scheme ++ "://" ++ (urlParse base).host ++ v)) ∧
       (goHasPrefix v "http" = false → goHasPrefix v "?" = false →
         goHasPrefix v "/" = false → ¬ v = "" →
         (getURLString e sel base).1 =
           goTrimSpace ((urlParse base).scheme ++ "://" ++ (urlParse base).host ++ "/" ++ v)))) ∧
    (∀ (currentYear : Nat) (f : Field) (item : Item) (sel : Sel) (base : String),
      f.Typ = "url" → (getURLString f.ElementLocation sel.url base).1 = "" →
      extractField currentYear f item sel base
        = .ok (item.setVal f.Name (.str base))) ∧
    (getURLString elDef (mkUrlSel "/events/1") "https://x.test/a/b").1
      = "https://x.test/events/1" ∧
    (getURLString elDef (mkUrlSel "?p=2") "https://x.test/a/b").1
      = "https://x.test/a/b?p=2" ∧
    (getURLString elDef (mkUrlSel "https://y.test/z") "https://x.test/a/b").1
      = "https://y.test/z" ∧
    (getURLString elDef (mkUrlSel "") "https://x.test/a/b").1 = "" := by
  refine ⟨?_, ?_, by decide, by decide, by decide, by decide⟩
  · intro e sel base v hv
    rw [getURLString_snd] at hv
    unfold getURLString
    dsimp only
    rw [hv]
    refine ⟨?_, ?_, ?_, ?_, ?_⟩
    · intro h0; rw [if_pos h0]
    · intro hh h0; rw [if_neg h0, if_pos hh]
    · intro hh hq h0; rw [if_neg h0, if_neg (by simp [hh]), if_pos hq]
    · intro hh hq hs h0
      rw [if_neg h0, if_neg (by simp [hh]), if_neg (by simp [hq]),
        if_neg (show ¬ ¬ goHasPrefix v "/" = true by simp [hs])]
    · intro hh hq hs h0
      rw [if_neg h0, if_neg (by simp [hh]), if_neg (by simp [hq]),
        if_pos (show ¬ goHasPrefix v "/" = true by simp [hs])]
  · intro currentYear f item sel base hty hurl
    unfold extractField
    rw [if_neg (by simp [hty]), if_pos hty]
    dsimp only
    rw [hurl]
    rfl

/-- C4 witness: the amended theorem instantiated at the relative-path
example. -/
theorem C4_urlNormalization_witness :
    (getURLString elDef (mkUrlSel "events/1") "https://x.test/a/b").1
      = "https://x.test/events/1" := by
  have h := (C4_urlNormalization_amended.1 elDef (mkUrlSel "events/1")
      "https://x.test/a/b" "events/1" (by decide)).2.2.2.2
    (by decide) (by decide) (by decide) (by decide)
  rw [h]
  decide

/-- C6 counterexample: with three matches and `index = -2`, the code
neither returns a match nor an error: `matchingStrings[-2]` is a Go
runtime panic (the `index >= len` guard does not catch negative
indices). -/
theorem C6_negativeIndex_cex :
    extractStringRegex findAll3 ⟨"a[0-9]", -2⟩ "a1 a2 a3" = .crash ∧
    ¬ extractStringRegex findAll3 ⟨"a[0-9]", -2⟩ "a1 a2 a3" = .ok "a2" ∧
    ¬ extractStringRegex findAll3 ⟨"a[0-9]", -2⟩ "a1 a2 a3"
      = .err ("regex index out of bounds. regex 'a[0-9]' gave only 3 matches") := by
  refine ⟨rfl, ?_, ?_⟩ <;> decide

/-- C6 (amended): for a non-empty pattern, no match is an error;
`index = -1` selects the last match; an index at least the number of
matches is an out-of-bounds error; an index in `[0, count)` selects the
match at that index; an index below `-1` is a runtime panic (negative
slice index), not a returned match. -/
theorem C6_extractStringRegex_amended (findAll : String → String → List String)
    (rc : RegexConfig) (s : String) (hexp : ¬ rc.Exp = "") :
    (findAll rc.Exp s = [] →
      extractStringRegex findAll rc s
        = .err ("no matching strings found for regex: " ++ rc.Exp)) ∧
    (rc.Index = -1 → ¬ findAll rc.Exp s = [] →
      extractStringRegex findAll rc s
        = .ok ((findAll rc.Exp s).getLast?.getD "")) ∧
    (0 ≤ rc.Index → ¬ findAll rc.Exp s = [] →
      ((findAll rc.Exp s).length : Int) ≤ rc.Index →
      extractStringRegex findAll rc s
        = .err ("regex index out of bounds. regex '" ++ rc.Exp ++ "' gave only "
            ++ toString (findAll rc.Exp s).length ++ " matches")) ∧
    (0 ≤ rc.Index → rc.Index < ((findAll rc.Exp s).length : Int) →
      extractStringRegex findAll rc s
        = .ok (((findAll rc.Exp s).get? rc.Index.toNat).getD "")) ∧
    (rc.Index < -1 → ¬ findAll rc.Exp s = [] →
      extractStringRegex findAll rc s = .crash) := by
  refine ⟨?_, ?_, ?_, ?_, ?_⟩
  · intro hms
    simp [extractStringRegex, hexp, hms]
  · intro hidx hms
    have hlen : ¬ (findAll rc.Exp s).length = 0 := by
      simpa [List.length_eq_zero] using hms
    simp [extractStringRegex, hexp, hlen, hidx]
  · intro h0 hms hle
    have hlen : ¬ (findAll rc.Exp s).length = 0 := by
      simpa [List.length_eq_zero] using hms
    have hne : ¬ rc.Index = -1 := by omega
    simp [extractStringRegex, hexp, hlen, hne, hle]
  · intro h0 hlt
    have hlen : ¬ (findAll rc.Exp s).length = 0 := by
      intro h
      rw [h] at hlt
      omega
    have hne : ¬ rc.Index = -1 := by omega
    have hngt : ¬ ((findAll rc.Exp s).length : Int) ≤ rc.Index := by omega
    have hnneg : ¬ rc.Index < 0 := by omega
    simp [extractStringRegex, hexp, hlen, hne, hngt, hnneg]
  · intro hlt hms
    have hlen : ¬ (findAll rc.Exp s).length = 0 := by
      simpa [List.length_eq_zero] using hms
    have hne : ¬ rc.Index = -1 := by omega
    have hngt : ¬ ((findAll rc.Exp s).length : Int) ≤ rc.Index := by
      have : (0 : Int) ≤ ((findAll rc.Exp s).length : Int) := by positivity
      omega
    have hneg : rc.Index < 0 := by omega
    simp [extractStringRegex, hexp, hlen, hne, hngt, hneg]

/-- C6 witness: the amended theorem at the spec's three-match example,
for `index = -1` (last match) and `index = 5` (out of bounds). -/
theorem C6_extractStringRegex_witness :
    extractStringRegex findAll3 ⟨"a[0-9]", -1⟩ "a1 a2 a3" = .ok "a3" ∧
    extractStringRegex findAll3 ⟨"a[0-9]", 5⟩ "a1 a2 a3"
      = .err ("regex index out of bounds. regex 'a[0-9]' gave only 3 matches") := by
  constructor
  · have h := (C6_extractStringRegex_amended findAll3 ⟨"a[0-9]", -1⟩ "a1 a2 a3"
      (by decide)).2.1 rfl (by decide)
    rw [h]
    decide
  · have h := (C6_extractStringRegex_amended findAll3 ⟨"a[0-9]", 5⟩ "a1 a2 a3"
      (by decide)).2.2.1 (by decide) (by decide) (by decide)
    rw [h]
    decide

/-- C2 counterexample: `cexField` declares two components that both
cover `day`, yet `getDate` does not return the covered-twice error:
the first component's extracted text is empty, so it never enters the
covered set, and the run instead fails later with the missing
day-and-month error. -/
theorem C2_doubleCover_cex :
    getDate 2025 cexField cexSel
      = .error "date parsing error: to generate a date at least a day and a month is needed" ∧
    ¬ getDate 2025 cexField cexSel
      = .error "date parsing error: 'day' covered at least twice" := by
  constructor
  · rfl
  · intro h
    rw [show getDate 2025 cexField cexSel
        = .error "date parsing error: to generate a date at least a day and a month is needed"
        from rfl] at h
    exact absurd (Except.error.inj h) (by decide)

/-- C2 (amended): duplicate coverage is detected incrementally: when a
component is processed while not all four parts are covered yet, and
its covers overlap the parts covered so far (by earlier components
whose extracted text was non-empty), collection stops with the
covered-twice error of `checkForDoubleDateParts`, and `getDate` returns
exactly that error.  (Components processed after all four parts are
covered, and earlier duplicates whose text was empty, raise no
error.) -/
theorem C2_doubleCover_amended :
    (∀ (sel : Sel) (c : DateComponent) (rest : List DateComponent)
        (acc : List datePart) (comb : CoveredDateParts) (msg : String),
      hasAllDateParts comb = false →
      checkForDoubleDateParts c.Covers comb = .error msg →
      collectDateParts sel (c :: rest) acc comb = .error msg) ∧
    (∀ (currentYear : Nat) (f : Field) (sel : Sel) (msg : String),
      collectDateParts sel f.Components [] ⟨false, false, false, false⟩ = .error msg →
      getDate currentYear f sel = .error msg) := by
  constructor
  · intro sel c rest acc comb msg hall hchk
    unfold collectDateParts
    rw [hall]
    simp only [Bool.false_eq_true, if_false, hchk]
  · intro currentYear f sel msg hcol
    unfold getDate
    rw [hcol]

/-- C2 witness: under `posSel` both day components of `cexField`
extract non-empty text, and `getDate` does return the covered-twice
error, via both parts of the amended theorem. -/
theorem C2_doubleCover_witness :
    getDate 2025 cexField posSel
      = .error "date parsing error: 'day' covered at least twice" := by
  apply C2_doubleCover_amended.2
  have h := C2_doubleCover_amended.1 posSel
      ⟨⟨true, false, false, false⟩, { elDef with Selector := "d2" }, ["02"]⟩ []
      [⟨"03", ["02"]⟩] ⟨true, false, false, false⟩
      "date parsing error: 'day' covered at least twice" (by decide) (by decide)
  calc collectDateParts posSel cexField.Components [] ⟨false, false, false, false⟩
      = collectDateParts posSel
          [⟨⟨true, false, false, false⟩, { elDef with Selector := "d2" }, ["02"]⟩]
          [⟨"03", ["02"]⟩] ⟨true, false, false, false⟩ := by decide
    _ = .error "date parsing error: 'day' covered at least twice" := h

/-- C1: date assembly appends a default year fragment (current calendar
year, layout `2006`) when year is uncovered and a default time fragment
(`20:00`, layout `15:04`) when time is uncovered; if day or month
remain uncovered, `getDate` fails with the missing-day-and-month error
instead of returning a timestamp; and the spec's concrete example
(`12.04` with layout `02.01`, `18:30` with layout `15:04`, no year
component) parses to the current year, April 12th, 18:30 in the
configured zone. -/
theorem C1_dateDefaults :
    (∀ (currentYear : Nat) (combined : CoveredDateParts) (parts : List datePart),
      combined.Year = false → combined.Time = true →
      addDefaultParts currentYear combined parts
        = parts ++ [⟨toString currentYear, ["2006"]⟩]) ∧
    (∀ (currentYear : Nat) (combined : CoveredDateParts) (parts : List datePart),
      combined.Year = false → combined.Time = false →
      addDefaultParts currentYear combined parts
        = parts ++ [⟨toString currentYear, ["2006"]⟩] ++ [⟨"20:00", ["15:04"]⟩]) ∧
    (∀ (currentYear : Nat) (combined : CoveredDateParts) (parts : List datePart),
      combined.Year = true → combined.Time = false →
      addDefaultParts currentYear combined parts
        = parts ++ [⟨"20:00", ["15:04"]⟩]) ∧
    (∀ (currentYear : Nat) (f : Field) (sel : Sel) (parts : List datePart)
        (combined : CoveredDateParts),
      collectDateParts sel f.Components [] ⟨false, false, false, false⟩
        = .ok (parts, combined) →
      (combined.Day = false ∨ combined.Month = false) →
      getDate currentYear f sel
        = .error "date parsing error: to generate a date at least a day and a month is needed") ∧
    getDate 2025 exField exSel = .ok ⟨2025, 4, 12, 18, 30, "Europe/Berlin"⟩ ∧
    getDate 1999 exField exSel = .ok ⟨1999, 4, 12, 18, 30, "Europe/Berlin"⟩ := by
  refine ⟨?_, ?_, ?_, ?_, rfl, rfl⟩
  · intro currentYear combined parts hY hT
    simp [addDefaultParts, hY, hT]
  · intro currentYear combined parts hY hT
    simp [addDefaultParts, hY, hT]
  · intro currentYear combined parts hY hT
    simp [addDefaultParts, hY, hT]
  · intro currentYear f sel parts combined hcol hdm
    unfold getDate
    rw [hcol]
    rcases hdm with h | h <;> simp [h]

/-- C1 witness: the year default appended for a year-less cover set, and
the missing-day-and-month failure for a time-only component list. -/
theorem C1_dateDefaults_witness :
    addDefaultParts 2025 ⟨true, true, false, true⟩ [] = [⟨"2025", ["2006"]⟩] ∧
    getDate 2025 timeOnlyField exSel
      = .error "date parsing error: to generate a date at least a day and a month is needed" := by
  constructor
  · have h := C1_dateDefaults.1 2025 ⟨true, true, false, true⟩ [] rfl rfl
    rw [h]
    decide
  · exact C1_dateDefaults.2.2.2.1 2025 timeOnlyField exSel
      [⟨"18:30", ["15:04"]⟩] ⟨false, false, false, true⟩ (by decide) (Or.inl rfl)

/-- C5: the crawl loop stops exactly when the computed next-page URL is
empty (the page just processed is the last) or when `maxPages > 0`
pages have been fetched; with `maxPages = 2`, exactly two pages are
fetched no matter what further links exist; with `maxPages = 0` and
pages that always link onward, the loop never stops (it exhausts any
amount of fuel). -/
theorem C5_paginationTermination :
    (∀ (currentYear : Nat) (fetch : Fetcher) (c : Scraper) (fuel : Nat)
        (pageURL : String) (pagLoc : ElementLocation) (currentPage done : Nat)
        (acc : List Item) (doc : Doc),
      fetch pageURL = .ok doc →
      (getURLString pagLoc doc.sel.url pageURL).1 = "" →
      getItemsLoop currentYear fetch c (fuel + 1) pageURL pagLoc currentPage done acc
        = some (acc ++ doc.nodes.filterMap (processItem currentYear fetch c pageURL),
            none, done + 1)) ∧
    (∀ (currentYear : Nat) (fetch : Fetcher) (c : Scraper) (fuel : Nat)
        (u0 : String) (pl0 : ElementLocation) (acc : List Item)
        (d1 d2 : Doc) (u1 : String) (pl1 : ElementLocation),
      c.MaxPages = 2 →
      fetch u0 = .ok d1 →
      getURLString pl0 d1.sel.url u0 = (u1, pl1) →
      ¬ u1 = "" →
      fetch u1 = .ok d2 →
      getItemsLoop currentYear fetch c (fuel + 2) u0 pl0 0 0 acc
        = some ((acc ++ d1.nodes.filterMap (processItem currentYear fetch c u0))
            ++ d2.nodes.filterMap (processItem currentYear fetch c u1), none, 2)) ∧
    (∀ (currentYear : Nat) (fetch : Fetcher) (c : Scraper),
      c.MaxPages = 0 →
      (∀ u, ∃ d, fetch u = .ok d ∧
        ∀ pl, ¬ (getURLString pl d.sel.url u).1 = "") →
      ∀ (fuel : Nat) (u : String) (pl : ElementLocation) (cp done : Nat)
        (acc : List Item),
        getItemsLoop currentYear fetch c fuel u pl cp done acc = none) := by
  refine ⟨?_, ?_, ?_⟩
  · intro currentYear fetch c fuel pageURL pagLoc currentPage done acc doc hf hu
    rw [getItemsLoop, hf]
    dsimp only
    rw [hu]
    simp
  · intro currentYear fetch c fuel u0 pl0 acc d1 d2 u1 pl1 hm hf1 hu1 hne hf2
    rw [getItemsLoop, hf1]
    dsimp only
    rw [hu1]
    dsimp only
    rw [if_pos ⟨hne, by rw [hm]; exact Or.inl (by omega)⟩]
    rw [getItemsLoop, hf2]
    dsimp only
    rw [if_neg (by rw [hm]; rintro ⟨-, h | h⟩ <;> omega)]
  · intro currentYear fetch c hm hstep fuel
    induction fuel with
    | zero => intro u pl cp done acc; rfl
    | succ n ih =>
      intro u pl cp done acc
      obtain ⟨d, hd, hne⟩ := hstep u
      rw [getItemsLoop, hd]
      dsimp only
      rw [if_pos ⟨hne pl, Or.inr hm⟩]
      exact ih _ _ _ _ _

/-- C5 witness: with always-linking pages and `maxPages = 2` exactly
two pages are fetched; with a page carrying no next link the loop stops
after that page. -/
theorem C5_paginationTermination_witness :
    getItemsLoop 0 fetchW cfgW 5 "http://base" elDef 0 0 [] = some ([], none, 2) ∧
    getItemsLoop 0 fetchEnd cfgW 5 "http://base" elDef 0 0 [] = some ([], none, 1) := by
  constructor
  · have h := C5_paginationTermination.2.1 0 fetchW cfgW 3 "http://base" elDef []
      docW docW "http://n" { elDef with Attr := "href" } rfl rfl (by decide)
      (by decide) rfl
    rw [h]
    decide
  · have h := C5_paginationTermination.1 0 fetchEnd cfgW 4 "http://base" elDef 0 0 []
      docEnd rfl (by decide)
    rw [h]
    decide

/-- C8: a fetch or parse failure at page level aborts the whole run,
returning the items collected so far together with the error; an item
node on which processing fails contributes nothing, the surrounding
nodes of the page still being processed; a subpage fetch/parse failure
makes the item's field loop fail, which skips exactly that item. -/
theorem C8_errorScoping :
    (∀ (currentYear : Nat) (fetch : Fetcher) (c : Scraper) (fuel : Nat)
        (pageURL : String) (pagLoc : ElementLocation) (currentPage done : Nat)
        (acc : List Item) (e : String),
      fetch pageURL = .error e →
      getItemsLoop currentYear fetch c (fuel + 1) pageURL pagLoc currentPage done acc
        = some (acc, some e, done)) ∧
    (∀ (currentYear : Nat) (fetch : Fetcher) (c : Scraper) (pageURL : String)
        (pre post : List ItemNode) (bad : ItemNode),
      processItem currentYear fetch c pageURL bad = none →
      (pre ++ bad :: post).filterMap (processItem currentYear fetch c pageURL)
        = pre.filterMap (processItem currentYear fetch c pageURL)
          ++ post.filterMap (processItem currentYear fetch c pageURL)) ∧
    (∀ (currentYear : Nat) (fetch : Fetcher) (scraperURL : String) (f : Field)
        (rest : List Field) (item : Item) (e : String),
      ¬ f.OnSubpage = "" → f.Value = "" →
      fetch (sprintLookup (item.getVal f.OnSubpage)) = .error e →
      processSubpageFields currentYear fetch scraperURL (f :: rest) item = .error e) ∧
    (∀ (currentYear : Nat) (fetch : Fetcher) (c : Scraper) (pageURL : String)
        (node : ItemNode) (item : Item) (e : String),
      c.ExcludeWithSelector.any node.matchesExclude = false →
      processMainFields currentYear node.sel pageURL c.Fields [] = .ok item →
      processSubpageFields currentYear fetch c.URL c.Fields item = .error e →
      processItem currentYear fetch c pageURL node = none) := by
  refine ⟨?_, ?_, ?_, ?_⟩
  · intro currentYear fetch c fuel pageURL pagLoc currentPage done acc e hf
    rw [getItemsLoop, hf]
  · intro currentYear fetch c pageURL pre post bad hbad
    rw [List.filterMap_append, List.filterMap_cons, hbad]
  · intro currentYear fetch scraperURL f rest item e hsub hval hf
    rw [processSubpageFields, if_pos ⟨hsub, hval⟩, hf]
  · intro currentYear fetch c pageURL node item e hexc hmain hsub
    unfold processItem
    simp [hexc, hmain, hsub]

/-- C8 witness: a failing first fetch returns the provided accumulator
plus the error; an excluded node is skipped while its neighbours are
kept; a subpage fetch failure fails the subpage field loop; and that
failure makes the whole item disappear. -/
theorem C8_errorScoping_witness :
    getItemsLoop 0 fetchErr cfgW 7 "http://base" elDef 0 0 []
      = some ([], some "connection refused", 0) ∧
    ([goodNode] ++ badNode :: [goodNode]).filterMap (processItem 0 fetchEnd cfgX "u")
      = [goodNode].filterMap (processItem 0 fetchEnd cfgX "u")
        ++ [goodNode].filterMap (processItem 0 fetchEnd cfgX "u") ∧
    processSubpageFields 0 fetchErr "http://base" [subField]
        [("url", Value.str "http://sub")]
      = .error "connection refused" ∧
    processItem 0 fetchErr { cfgW with Fields := [subField] } "u" goodNode = none := by
  refine ⟨?_, ?_, ?_, ?_⟩
  · exact C8_errorScoping.1 0 fetchErr cfgW 6 "http://base" elDef 0 0 [] _ rfl
  · exact C8_errorScoping.2.1 0 fetchEnd cfgX "u" [goodNode] [goodNode] badNode
      (by decide)
  · exact C8_errorScoping.2.2.1 0 fetchErr "http://base" subField []
      [("url", Value.str "http://sub")] "connection refused" (by decide) rfl rfl
  · exact C8_errorScoping.2.2.2 0 fetchErr { cfgW with Fields := [subField] } "u"
      goodNode [] "connection refused" rfl (by decide) (by decide)

/-- C3: an item is kept iff (some `match=true` filter's regex matches
its field's value, or no `match=true` filter applies, the positive
condition being vacuously true) and no `match=false` filter's regex
matches its field's value; a filter whose field is absent from the item
affects neither condition.  Consequently, with zero `match=true`
filters the item is kept iff no exclusion matches, and adding one
`match=true` filter on a present field whose regex never matches drops
every item. -/
theorem C3_filterItem :
    (∀ (filters : List Filter) (item : Item),
      filterItem filters item = true ↔
        ((∃ flt ∈ filters, flt.Match = true ∧
            ∃ v, item.getVal flt.Field = some v ∧ flt.Regex v.sprint = true) ∨
          (∀ flt ∈ filters, flt.Match = true → item.getVal flt.Field = none)) ∧
        (∀ flt ∈ filters, flt.Match = false →
          ∀ v, item.getVal flt.Field = some v → flt.Regex v.sprint = false)) ∧
    (∀ (filters : List Filter) (item : Item),
      (∀ flt ∈ filters, flt.Match = false) →
      (filterItem filters item = true ↔
        (∀ flt ∈ filters, ∀ v, item.getVal flt.Field = some v →
          flt.Regex v.sprint = false))) ∧
    (∀ (filters : List Filter) (item : Item) (g : Filter),
      (∀ flt ∈ filters, flt.Match = false) →
      g.Match = true → (∀ s, g.Regex s = false) →
      (∃ v, item.getVal g.Field = some v) →
      filterItem (filters ++ [g]) item = false) := by
  have main : ∀ (filters : List Filter) (item : Item),
      filterItem filters item = true ↔
        ((∃ flt ∈ filters, flt.Match = true ∧
            ∃ v, item.getVal flt.Field = some v ∧ flt.Regex v.sprint = true) ∨
          (∀ flt ∈ filters, flt.Match = true → item.getVal flt.Field = none)) ∧
        (∀ flt ∈ filters, flt.Match = false →
          ∀ v, item.getVal flt.Field = some v → flt.Regex v.sprint = false) := by
    intro filters item
    rw [filterItem, filterLoop_spec]
    dsimp only
    simp only [Nat.zero_add]
    rw [Bool.and_eq_true]
    constructor
    · rintro ⟨h1, h2⟩
      constructor
      · by_cases hz : filters.countP
            (fun flt => flt.Match && (item.getVal flt.Field).isSome) = 0
        · refine Or.inr ?_
          rw [List.countP_eq_zero] at hz
          intro flt hf hM
          have := hz flt hf
          rw [hM] at this
          simp only [Bool.true_and] at this
          exact Option.not_isSome_iff_eq_none.mp (by simpa using this)
        · rw [if_neg hz] at h1
          refine Or.inl ?_
          simp only [Bool.false_or, List.any_eq_true, Bool.and_eq_true] at h1
          obtain ⟨flt, hf, hM, hm⟩ := h1
          exact ⟨flt, hf, hM, (matchOption_eq_true _ _).mp hm⟩
      · intro flt hf hM v hv
        simp only [Bool.true_and, List.all_eq_true] at h2
        have := h2 flt hf
        rw [hM, hv] at this
        simpa using this
    · rintro ⟨h1, h2⟩
      constructor
      · rcases h1 with ⟨flt, hf, hM, v, hv, hr⟩ | hnone
        · split
          · rfl
          · simp only [Bool.false_or, List.any_eq_true, Bool.and_eq_true]
            exact ⟨flt, hf, hM, (matchOption_eq_true _ _).mpr ⟨v, hv, hr⟩⟩
        · rw [if_pos ?_]
          rw [List.countP_eq_zero]
          intro flt hf
          simp only [Bool.and_eq_true, not_and]
          intro hM
          rw [hnone flt hf hM]
          simp
      · simp only [Bool.true_and, List.all_eq_true]
        intro flt hf
        cases hM : flt.Match with
        | true => simp
        | false =>
          simp only [Bool.false_or]
          cases hv : item.getVal flt.Field with
          | none => simp
          | some v => simpa using h2 flt hf hM v hv
  refine ⟨main, ?_, ?_⟩
  · intro filters item hall
    rw [main]
    constructor
    · rintro ⟨-, h2⟩ flt hf v hv
      exact h2 flt hf (hall flt hf) v hv
    · intro h
      refine ⟨Or.inr fun flt hf hM => absurd (hall flt hf) (by simp [hM]), ?_⟩
      intro flt hf _ v hv
      exact h flt hf v hv
  · intro filters item g hall hgM hgR ⟨v, hv⟩
    by_contra hkeep
    have ht : filterItem (filters ++ [g]) item = true := by
      revert hkeep
      cases filterItem (filters ++ [g]) item <;> simp
    rw [main] at ht
    rcases ht.1 with ⟨flt, hf, hM, w, hw, hr⟩ | hnone
    · rcases List.mem_append.mp hf with hf | hf
      · exact absurd (hall flt hf) (by simp [hM])
      · have : flt = g := by simpa using hf
        subst this
        rw [hgR] at hr
        exact absurd hr (by simp)
    · have := hnone g (List.mem_append.mpr (Or.inr (by simp))) hgM
      rw [hv] at this
      exact absurd this (by simp)

/-- C3 witness: one never-matching `match=true` filter on a present
field drops the item. -/
theorem C3_filterItem_witness : filterItem [gNever] itemA = false :=
  C3_filterItem.2.2 [] itemA gNever (by simp) rfl (fun _ => rfl)
    ⟨Value.str "x", by decide⟩

theorem extractField_empty_error (currentYear : Nat) (f : Field) (item : Item)
    (sel : Sel) (base : String)
    (hty : f.Typ = "text" ∨ f.Typ = "") (hce : f.CanBeEmpty = false)
    (htext : sel.text f.ElementLocation = .ok "") :
    extractField currentYear f item sel base
      = .error ("field " ++ f.Name ++ " cannot be empty") := by
  unfold extractField
  rw [if_pos hty, htext]
  dsimp only
  rw [if_pos (by simp [hce])]

theorem processMainFields_fail (currentYear : Nat) (sel : Sel) (purl : String)
    (f : Field) (hval : f.Value = "") (hos : f.OnSubpage = "")
    (hty : f.Typ = "text" ∨ f.Typ = "") (hce : f.CanBeEmpty = false)
    (htext : sel.text f.ElementLocation = .ok "") :
    ∀ (fields : List Field) (item0 item₁ : Item),
    f ∈ fields →
    ¬ processMainFields currentYear sel purl fields item0 = .ok item₁ := by
  intro fields
  induction fields with
  | nil => intro item0 item₁ hin; exact absurd hin (List.not_mem_nil f)
  | cons g rest ih =>
    intro item0 item₁ hin hmain
    rw [processMainFields] at hmain
    rcases List.mem_cons.mp hin with hfg | hfr
    · subst hfg
      rw [if_neg (by simp [hval]), if_pos hos,
        extractField_empty_error currentYear f item0 sel purl hty hce htext] at hmain
      simp at hmain
    · by_cases hgv : ¬ g.Value = ""
      · rw [if_pos hgv] at hmain
        exact ih _ _ hfr hmain
      · rw [if_neg hgv] at hmain
        by_cases hgs : g.OnSubpage = ""
        · rw [if_pos hgs] at hmain
          cases hx : extractField currentYear g item0 sel purl with
          | error e => rw [hx] at hmain; simp at hmain
          | ok item₂ =>
            rw [hx] at hmain
            exact ih _ _ hfr hmain
        · rw [if_neg hgs] at hmain
          exact ih _ _ hfr hmain

/-- C7: a text-type field (`text` or unset type) with
`canBeEmpty = false` whose resolved text is empty makes field
resolution fail with the "field cannot be empty" error, and the
containing item is discarded, so (given the spec's unique-field-name
invariant) no output item ever maps that field's name to an empty
string. -/
theorem C7_requiredFieldNotEmpty :
    (∀ (currentYear : Nat) (f : Field) (item : Item) (sel : Sel) (base : String),
      (f.Typ = "text" ∨ f.Typ = "") → f.CanBeEmpty = false →
      sel.text f.ElementLocation = .ok "" →
      extractField currentYear f item sel base
        = .error ("field " ++ f.Name ++ " cannot be empty")) ∧
    (∀ (currentYear : Nat) (fetch : Fetcher) (c : Scraper) (purl : String)
        (node : ItemNode) (f : Field),
      f ∈ c.Fields → f.Value = "" → (f.Typ = "text" ∨ f.Typ = "") →
      f.CanBeEmpty = false → f.OnSubpage = "" →
      node.sel.text f.ElementLocation = .ok "" →
      processItem currentYear fetch c purl node = none) ∧
    (∀ (currentYear : Nat) (fetch : Fetcher) (c : Scraper) (fuel : Nat)
        (items : List Item) (err : Option String) (n : Nat),
      GetItems currentYear fetch c fuel = some (items, err, n) →
      List.Nodup (c.Fields.map Field.Name) →
      ∀ it ∈ items, ∀ f ∈ c.Fields,
        f.Value = "" → (f.Typ = "text" ∨ f.Typ = "") → f.CanBeEmpty = false →
        ¬ it.getVal f.Name = some (.str "")) := by
  refine ⟨fun currentYear f item sel base hty hce htext =>
    extractField_empty_error currentYear f item sel base hty hce htext, ?_, ?_⟩
  · intro currentYear fetch c purl node f hin hval hty hce hos htext
    unfold processItem
    by_cases hexc : c.ExcludeWithSelector.any node.matchesExclude = true
    · rw [if_pos hexc]
    · rw [if_neg hexc]
      cases hmain : processMainFields currentYear node.sel purl c.Fields [] with
      | error e => rfl
      | ok item₁ =>
        exact absurd hmain
          (processMainFields_fail currentYear node.sel purl f hval hos hty hce
            htext c.Fields [] item₁ hin)
  · intro currentYear fetch c fuel items err n h hnod it hit f hin hval hty hce
    have hm := getItemsLoop_mem currentYear fetch c fuel c.URL c.PaginatorLocation
      0 0 [] (items, err, n) h it hit
    rcases hm with hfalse | ⟨purl, node, hp⟩
    · exact absurd hfalse (List.not_mem_nil it)
    · exact processItem_no_empty currentYear fetch c purl node it f hp hin hnod
        hval hty hce

/-- C7 witness: a required empty text extraction errors; a node whose
required text resolves empty yields no item; and in the concrete one
page run producing the item `title = hello`, no output item carries an
empty `title`. -/
theorem C7_requiredFieldNotEmpty_witness :
    extractField 0 titleField [] emptySel "http://base"
      = .error "field title cannot be empty" ∧
    processItem 0 fetchT cfgT "http://base" ⟨fun _ => false, emptySel⟩ = none ∧
    ¬ (Item.getVal [("title", Value.str "hello")] "title" = some (.str "")) := by
  refine ⟨?_, ?_, ?_⟩
  · exact C7_requiredFieldNotEmpty.1 0 titleField [] emptySel "http://base"
      (Or.inl rfl) rfl rfl
  · exact C7_requiredFieldNotEmpty.2.1 0 fetchT cfgT "http://base"
      ⟨fun _ => false, emptySel⟩ titleField (by decide) rfl (Or.inl rfl) rfl rfl rfl
  · exact C7_requiredFieldNotEmpty.2.2 0 fetchT cfgT 3
      [[("title", Value.str "hello")]] none 1 (by decide) (by decide)
      [("title", Value.str "hello")] (by decide) titleField (by decide)
      rfl (Or.inl rfl) rfl

theorem apiDeleteStep_ok (respond : HttpReq → Option Nat) (esc : String → String)
    (apiURL : String) (item : ApiItem) (deleted del' : List String)
    (trace trace' : List HttpReq)
    (h : apiDeleteStep respond esc apiURL item deleted trace = .ok (del', trace')) :
    (deleted.contains item.sourceUrl = true ∧ del' = deleted ∧ trace' = trace) ∨
    (deleted.contains item.sourceUrl = false ∧ del' = item.sourceUrl :: deleted ∧
      trace' = trace ++ [HttpReq.delete
        (mkDeleteURL esc apiURL item.sourceUrl item.dateFmt)
        item.sourceUrl item.dateFmt] ∧
      respond (HttpReq.delete
        (mkDeleteURL esc apiURL item.sourceUrl item.dateFmt)
        item.sourceUrl item.dateFmt) = some 200) := by
  unfold apiDeleteStep at h
  by_cases hc : deleted.contains item.sourceUrl = true
  · rw [if_pos hc] at h
    cases h
    exact Or.inl ⟨hc, rfl, rfl⟩
  · rw [if_neg hc] at h
    dsimp only at h
    cases hr : respond (HttpReq.delete
        (mkDeleteURL esc apiURL item.sourceUrl item.dateFmt)
        item.sourceUrl item.dateFmt) with
    | none => rw [hr] at h; simp at h
    | some st =>
      rw [hr] at h
      dsimp only at h
      by_cases hst : st = 200
      · rw [if_pos hst] at h
        cases h
        exact Or.inr ⟨by simpa using hc, rfl, rfl, by rw [hst]⟩
      · rw [if_neg hst] at h; simp at h

theorem apiDeleteStep_error (respond : HttpReq → Option Nat) (esc : String → String)
    (apiURL : String) (item : ApiItem) (deleted : List String)
    (trace tr0 : List HttpReq)
    (h : apiDeleteStep respond esc apiURL item deleted trace = .error tr0) :
    tr0 = trace ++ [HttpReq.delete
      (mkDeleteURL esc apiURL item.sourceUrl item.dateFmt)
      item.sourceUrl item.dateFmt] := by
  unfold apiDeleteStep at h
  by_cases hc : deleted.contains item.sourceUrl = true
  · rw [if_pos hc] at h; simp at h
  · rw [if_neg hc] at h
    dsimp only at h
    cases hr : respond (HttpReq.delete
        (mkDeleteURL esc apiURL item.sourceUrl item.dateFmt)
        item.sourceUrl item.dateFmt) with
    | none => rw [hr] at h; exact (Except.error.inj h).symm
    | some st =>
      rw [hr] at h
      dsimp only at h
      by_cases hst : st = 200
      · rw [if_pos hst] at h; simp at h
      · rw [if_neg hst] at h; exact (Except.error.inj h).symm

theorem apiPostStep_ok (respond : HttpReq → Option Nat) (batch batch' : List ApiItem)
    (trace trace' : List HttpReq)
    (h : apiPostStep respond batch trace = .ok (batch', trace')) :
    (¬ batch.length = 100 ∧ batch' = batch ∧ trace' = trace) ∨
    (batch.length = 100 ∧ batch' = [] ∧
      trace' = trace ++ [HttpReq.post batch] ∧
      respond (HttpReq.post batch) = some 201) := by
  unfold apiPostStep at h
  by_cases hlen : batch.length = 100
  · rw [if_pos hlen] at h
    dsimp only at h
    cases hr : respond (HttpReq.post batch) with
    | none => rw [hr] at h; simp at h
    | some st =>
      rw [hr] at h
      dsimp only at h
      by_cases hst : st = 201
      · rw [if_pos hst] at h
        cases h
        exact Or.inr ⟨hlen, rfl, rfl, by rw [hst]⟩
      · rw [if_neg hst] at h; simp at h
  · rw [if_neg hlen] at h
    cases h
    exact Or.inl ⟨hlen, rfl, rfl⟩

theorem apiPostStep_error (respond : HttpReq → Option Nat) (batch : List ApiItem)
    (trace tr0 : List HttpReq)
    (h : apiPostStep respond batch trace = .error tr0) :
    tr0 = trace ++ [HttpReq.post batch] := by
  unfold apiPostStep at h
  by_cases hlen : batch.length = 100
  · rw [if_pos hlen] at h
    dsimp only at h
    cases hr : respond (HttpReq.post batch) with
    | none => rw [hr] at h; exact (Except.error.inj h).symm
    | some st =>
      rw [hr] at h
      dsimp only at h
      by_cases hst : st = 201
      · rw [if_pos hst] at h; simp at h
      · rw [if_neg hst] at h; exact (Except.error.inj h).symm
  · rw [if_neg hlen] at h; simp at h

theorem postedItems_append (a b : List HttpReq) :
    postedItems (a ++ b) = postedItems a ++ postedItems b := by
  simp [postedItems]

theorem deletesFor_append (s : String) (a b : List HttpReq) :
    deletesFor s (a ++ b) = deletesFor s a ++ deletesFor s b := by
  simp [deletesFor]

theorem apiWriteLoop_posted (respond : HttpReq → Option Nat)
    (esc : String → String) (apiURL : String) :
    ∀ (items : List ApiItem) (del : List String) (batch : List ApiItem)
      (trace tr : List HttpReq),
    apiWriteLoop respond esc apiURL items del batch trace = (tr, false) →
    postedItems tr = postedItems trace ++ batch ++ items := by
  intro items
  induction items with
  | nil =>
    intro del batch trace tr h
    rw [apiWriteLoop] at h
    cases hr : respond (HttpReq.post batch) with
    | none => rw [hr] at h; simp at h
    | some st =>
      rw [hr] at h
      have h1 : trace ++ [HttpReq.post batch] = tr := congrArg Prod.fst h
      rw [← h1, postedItems_append]
      simp [postedItems]
  | cons item rest ih =>
    intro del batch trace tr h
    rw [apiWriteLoop] at h
    cases hd : apiDeleteStep respond esc apiURL item del trace with
    | error tr0 => rw [hd] at h; simp at h
    | ok p =>
      obtain ⟨del', trace'⟩ := p
      rw [hd] at h
      dsimp only at h
      cases hp : apiPostStep respond (batch ++ [item]) trace' with
      | error tr0 => rw [hp] at h; simp at h
      | ok q =>
        obtain ⟨batch', trace''⟩ := q
        rw [hp] at h
        dsimp only at h
        have hrec := ih _ _ _ _ h
        have hdel : postedItems trace' = postedItems trace := by
          rcases apiDeleteStep_ok _ _ _ _ _ _ _ _ hd with ⟨-, -, ht⟩ | ⟨-, -, ht, -⟩
          · rw [ht]
          · rw [ht, postedItems_append]; simp [postedItems]
        rcases apiPostStep_ok _ _ _ _ _ hp with ⟨-, hb, ht⟩ | ⟨-, hb, ht, -⟩
        · rw [hrec, hb, ht, hdel]
          simp
        · rw [hrec, hb, ht, postedItems_append, hdel]
          simp [postedItems]

theorem apiWriteLoop_batch_le (respond : HttpReq → Option Nat)
    (esc : String → String) (apiURL : String) :
    ∀ (items : List ApiItem) (del : List String) (batch : List ApiItem)
      (trace tr : List HttpReq) (fatal : Bool),
    apiWriteLoop respond esc apiURL items del batch trace = (tr, fatal) →
    batch.length ≤ 99 →
    ∀ b, HttpReq.post b ∈ tr → HttpReq.post b ∈ trace ∨ b.length ≤ 100 := by
  intro items
  induction items with
  | nil =>
    intro del batch trace tr fatal h hlen b hb
    rw [apiWriteLoop] at h
    have h1 : trace ++ [HttpReq.post batch] = tr := by
      cases hr : respond (HttpReq.post batch) with
      | none => rw [hr] at h; exact congrArg Prod.fst h
      | some st => rw [hr] at h; exact congrArg Prod.fst h
    rw [← h1] at hb
    rcases List.mem_append.mp hb with h2 | h2
    · exact Or.inl h2
    · have h3 : HttpReq.post b = HttpReq.post batch := by simpa using h2
      have hbb : b = batch := by injection h3
      exact Or.inr (by rw [hbb]; omega)
  | cons item rest ih =>
    intro del batch trace tr fatal h hlen b hb
    rw [apiWriteLoop] at h
    cases hd : apiDeleteStep respond esc apiURL item del trace with
    | error tr0 =>
      rw [hd] at h
      have h1 : tr0 = tr := congrArg Prod.fst h
      rw [← h1, apiDeleteStep_error _ _ _ _ _ _ _ hd] at hb
      rcases List.mem_append.mp hb with h3 | h3
      · exact Or.inl h3
      · simp at h3
    | ok p =>
      obtain ⟨del', trace'⟩ := p
      rw [hd] at h
      dsimp only at h
      have hmem' : ∀ b', HttpReq.post b' ∈ trace' → HttpReq.post b' ∈ trace := by
        intro b' hb'
        rcases apiDeleteStep_ok _ _ _ _ _ _ _ _ hd with ⟨-, -, ht⟩ | ⟨-, -, ht, -⟩
        · rw [ht] at hb'; exact hb'
        · rw [ht] at hb'
          rcases List.mem_append.mp hb' with h3 | h3
          · exact h3
          · simp at h3
      cases hp : apiPostStep respond (batch ++ [item]) trace' with
      | error tr0 =>
        rw [hp] at h
        have h1 : tr0 = tr := congrArg Prod.fst h
        rw [← h1, apiPostStep_error _ _ _ _ hp] at hb
        rcases List.mem_append.mp hb with h3 | h3
        · exact Or.inl (hmem' b h3)
        · have h4 : HttpReq.post b = HttpReq.post (batch ++ [item]) := by simpa using h3
          have hbb : b = batch ++ [item] := by injection h4
          refine Or.inr ?_
          rw [hbb, List.length_append, List.length_singleton]
          omega
      | ok q =>
        obtain ⟨batch', trace''⟩ := q
        rw [hp] at h
        dsimp only at h
        rcases apiPostStep_ok _ _ _ _ _ hp with ⟨hne, hbq, htq⟩ | ⟨-, hbq, htq, -⟩
        · have hlen' : batch'.length ≤ 99 := by
            rw [hbq, List.length_append, List.length_singleton]
            rw [List.length_append, List.length_singleton] at hne
            omega
          rcases ih _ _ _ _ _ h hlen' b hb with h3 | h3
          · rw [htq] at h3
            exact Or.inl (hmem' b h3)
          · exact Or.inr h3
        · have hlen' : batch'.length ≤ 99 := by rw [hbq]; simp
          rcases ih _ _ _ _ _ h hlen' b hb with h3 | h3
          · rw [htq] at h3
            rcases List.mem_append.mp h3 with h4 | h4
            · exact Or.inl (hmem' b h4)
            · have h5 : HttpReq.post b = HttpReq.post (batch ++ [item]) := by simpa using h4
              have hbb : b = batch ++ [item] := by injection h5
              refine Or.inr ?_
              rw [hbb, List.length_append, List.length_singleton]
              omega
          · exact Or.inr h3

theorem deletesFor_post (s : String) (b : List ApiItem) :
    deletesFor s [HttpReq.post b] = [] := by
  simp [deletesFor]

theorem deletesFor_delete (s : String) (u src d : String) :
    deletesFor s [HttpReq.delete u src d]
      = if src = s then [HttpReq.delete u src d] else [] := by
  by_cases h : src = s <;> simp [deletesFor, h]

theorem apiWriteLoop_deletesFor (respond : HttpReq → Option Nat)
    (esc : String → String) (apiURL : String) :
    ∀ (items : List ApiItem) (del : List String) (batch : List ApiItem)
      (trace tr : List HttpReq),
    apiWriteLoop respond esc apiURL items del batch trace = (tr, false) →
    ∀ s,
    (del.contains s = true → deletesFor s tr = deletesFor s trace) ∧
    (del.contains s = false →
      deletesFor s tr = deletesFor s trace ++
        (match items.find? (fun it => it.sourceUrl = s) with
         | some it => [HttpReq.delete (mkDeleteURL esc apiURL s it.dateFmt) s it.dateFmt]
         | none => [])) := by
  intro items
  induction items with
  | nil =>
    intro del batch trace tr h s
    rw [apiWriteLoop] at h
    cases hr : respond (HttpReq.post batch) with
    | none => rw [hr] at h; simp at h
    | some st =>
      rw [hr] at h
      have h1 : trace ++ [HttpReq.post batch] = tr := congrArg Prod.fst h
      constructor <;> intro _ <;>
        rw [← h1, deletesFor_append, deletesFor_post] <;> simp
  | cons item rest ih =>
    intro del batch trace tr h s
    rw [apiWriteLoop] at h
    cases hd : apiDeleteStep respond esc apiURL item del trace with
    | error tr0 => rw [hd] at h; simp at h
    | ok p =>
      obtain ⟨del', trace'⟩ := p
      rw [hd] at h
      dsimp only at h
      cases hp : apiPostStep respond (batch ++ [item]) trace' with
      | error tr0 => rw [hp] at h; simp at h
      | ok q =>
        obtain ⟨batch', trace''⟩ := q
        rw [hp] at h
        dsimp only at h
        have hrec := ih _ _ _ _ h
        have htr'' : deletesFor s trace'' = deletesFor s trace' := by
          rcases apiPostStep_ok _ _ _ _ _ hp with ⟨-, -, ht⟩ | ⟨-, -, ht, -⟩
          · rw [ht]
          · rw [ht, deletesFor_append, deletesFor_post, List.append_nil]
        rcases apiDeleteStep_ok _ _ _ _ _ _ _ _ hd with
          ⟨hcon, hdq, htq⟩ | ⟨hcon, hdq, htq, -⟩
        · -- source already deleted: no new DELETE
          subst hdq
          constructor
          · intro hs
            rw [((hrec s).1 hs), htr'', htq]
          · intro hs
            have hne : ¬ item.sourceUrl = s := by
              intro hh
              rw [hh] at hcon
              rw [hcon] at hs
              exact absurd hs (by simp)
            rw [((hrec s).2 hs), htr'', htq, List.find?_cons_of_neg _ (by simpa using hne)]
        · -- new source: one DELETE appended
          subst hdq
          constructor
          · intro hs
            have hne : ¬ item.sourceUrl = s := by
              intro hh
              rw [hh, hs] at hcon
              exact absurd hcon (by simp)
            have hs' : (item.sourceUrl :: del).contains s = true := by
              rw [List.contains_cons, hs, Bool.or_true]
            rw [((hrec s).1 hs'), htr'', htq, deletesFor_append, deletesFor_delete,
              if_neg hne, List.append_nil]
          · intro hs
            by_cases hsrc : item.sourceUrl = s
            · have hs' : (item.sourceUrl :: del).contains s = true := by
                rw [List.contains_cons, beq_iff_eq.mpr hsrc.symm, Bool.true_or]
              rw [((hrec s).1 hs'), htr'', htq, deletesFor_append, deletesFor_delete,
                if_pos hsrc, List.find?_cons_of_pos _ (by simpa using hsrc)]
              dsimp only
              rw [hsrc]
            · have hs' : (item.sourceUrl :: del).contains s = false := by
                rw [List.contains_cons, hs, Bool.or_false]
                exact beq_eq_false_iff_ne.mpr (fun hh => hsrc hh.symm)
              rw [((hrec s).2 hs'), htr'', htq, deletesFor_append, deletesFor_delete,
                if_neg hsrc, List.append_nil, List.find?_cons_of_neg _ (by simpa using hsrc)]

theorem delBeforePost_bound {tr : List HttpReq} {x : HttpReq} {i : Nat}
    {r : HttpReq} (h : (tr ++ [x])[i]? = some r) : i < tr.length + 1 := by
  rcases List.getElem?_eq_some.mp h with ⟨hlt, -⟩
  simpa using hlt

theorem delBeforePost_append_delete (tr : List HttpReq) (u s d : String)
    (h : delBeforePost tr) :
    delBeforePost (tr ++ [HttpReq.delete u s d]) := by
  intro i b hib it hit
  have hbnd := delBeforePost_bound hib
  by_cases hi : i < tr.length
  · have hib' : tr[i]? = some (HttpReq.post b) := by
      rw [List.getElem?_append, if_pos hi] at hib
      exact hib
    obtain ⟨j, hj, u', d', hjd⟩ := h i b hib' it hit
    have hjlt : j < tr.length := by omega
    refine ⟨j, hj, u', d', ?_⟩
    rw [List.getElem?_append, if_pos hjlt]
    exact hjd
  · exfalso
    have hieq : i = tr.length := by omega
    subst hieq
    rw [show (tr ++ [HttpReq.delete u s d])[tr.length]?
        = some (HttpReq.delete u s d) by simp] at hib
    simp at hib
theorem delBeforePost_append_post (tr : List HttpReq) (batch : List ApiItem)
    (hB : ∀ it ∈ batch, ∃ u d, HttpReq.delete u it.sourceUrl d ∈ tr)
    (h : delBeforePost tr) :
    delBeforePost (tr ++ [HttpReq.post batch]) := by
  intro i b hib it hit
  have hbnd := delBeforePost_bound hib
  by_cases hi : i < tr.length
  · have hib' : tr[i]? = some (HttpReq.post b) := by
      rw [List.getElem?_append, if_pos hi] at hib
      exact hib
    obtain ⟨j, hj, u', d', hjd⟩ := h i b hib' it hit
    have hjlt : j < tr.length := by omega
    refine ⟨j, hj, u', d', ?_⟩
    rw [List.getElem?_append, if_pos hjlt]
    exact hjd
  · have hieq : i = tr.length := by omega
    subst hieq
    rw [show (tr ++ [HttpReq.post batch])[tr.length]?
        = some (HttpReq.post batch) by simp] at hib
    have hbb : b = batch := by
      have := Option.some.inj hib
      injection this.symm
    subst hbb
    obtain ⟨u, d, hmem⟩ := hB it hit
    obtain ⟨j, hjlt, hje⟩ := List.getElem_of_mem hmem
    refine ⟨j, hjlt, u, d, ?_⟩
    rw [List.getElem?_append, if_pos hjlt, List.getElem?_eq_getElem hjlt]
    exact congrArg some hje

theorem apiWriteLoop_pok (respond : HttpReq → Option Nat)
    (esc : String → String) (apiURL : String) :
    ∀ (items : List ApiItem) (del : List String) (batch : List ApiItem)
      (trace tr : List HttpReq) (fatal : Bool),
    apiWriteLoop respond esc apiURL items del batch trace = (tr, fatal) →
    (∀ s, del.contains s = true → ∃ u d, HttpReq.delete u s d ∈ trace) →
    (∀ it ∈ batch, ∃ u d, HttpReq.delete u it.sourceUrl d ∈ trace) →
    delBeforePost trace →
    delBeforePost tr := by
  intro items
  induction items with
  | nil =>
    intro del batch trace tr fatal h _ hB hP
    rw [apiWriteLoop] at h
    have h1 : trace ++ [HttpReq.post batch] = tr := by
      cases hr : respond (HttpReq.post batch) with
      | none => rw [hr] at h; exact congrArg Prod.fst h
      | some st => rw [hr] at h; exact congrArg Prod.fst h
    rw [← h1]
    exact delBeforePost_append_post trace batch hB hP
  | cons item rest ih =>
    intro del batch trace tr fatal h hD hB hP
    rw [apiWriteLoop] at h
    cases hd : apiDeleteStep respond esc apiURL item del trace with
    | error tr0 =>
      rw [hd] at h
      have h1 : tr0 = tr := congrArg Prod.fst h
      rw [← h1, apiDeleteStep_error _ _ _ _ _ _ _ hd]
      exact delBeforePost_append_delete _ _ _ _ hP
    | ok p =>
      obtain ⟨del', trace'⟩ := p
      rw [hd] at h
      dsimp only at h
      have hstep : (∀ s, del'.contains s = true →
            ∃ u d, HttpReq.delete u s d ∈ trace') ∧
          (∀ it ∈ batch ++ [item], ∃ u d, HttpReq.delete u it.sourceUrl d ∈ trace') ∧
          delBeforePost trace' := by
        rcases apiDeleteStep_ok _ _ _ _ _ _ _ _ hd with
          ⟨hcon, hdq, htq⟩ | ⟨hcon, hdq, htq, -⟩
        · subst hdq
          refine ⟨fun s hs => htq ▸ hD s hs, ?_, htq ▸ hP⟩
          intro it2 hit2
          rcases List.mem_append.mp hit2 with h2 | h2
          · exact htq ▸ hB it2 h2
          · have : it2 = item := by simpa using h2
            subst this
            obtain ⟨u, d, hm⟩ := hD it2.sourceUrl hcon
            exact ⟨u, d, htq ▸ hm⟩
        · subst hdq
          subst htq
          refine ⟨?_, ?_, delBeforePost_append_delete _ _ _ _ hP⟩
          · intro s hs
            rw [List.contains_cons] at hs
            rcases (Bool.or_eq_true _ _).mp hs with h2 | h2
            · have hssrc : s = item.sourceUrl := beq_iff_eq.mp h2
              subst hssrc
              exact ⟨mkDeleteURL esc apiURL item.sourceUrl item.dateFmt, item.dateFmt,
                List.mem_append.mpr (Or.inr (List.mem_singleton.mpr rfl))⟩
            · obtain ⟨u, d, hm⟩ := hD s h2
              exact ⟨u, d, List.mem_append.mpr (Or.inl hm)⟩
          · intro it2 hit2
            rcases List.mem_append.mp hit2 with h2 | h2
            · obtain ⟨u, d, hm⟩ := hB it2 h2
              exact ⟨u, d, List.mem_append.mpr (Or.inl hm)⟩
            · have hit2i : it2 = item := by simpa using h2
              subst hit2i
              exact ⟨mkDeleteURL esc apiURL it2.sourceUrl it2.dateFmt, it2.dateFmt,
                List.mem_append.mpr (Or.inr (List.mem_singleton.mpr rfl))⟩
      obtain ⟨hD', hB', hP'⟩ := hstep
      cases hp : apiPostStep respond (batch ++ [item]) trace' with
      | error tr0 =>
        rw [hp] at h
        have h1 : tr0 = tr := congrArg Prod.fst h
        rw [← h1, apiPostStep_error _ _ _ _ hp]
        exact delBeforePost_append_post _ _ hB' hP'
      | ok q =>
        obtain ⟨batch', trace''⟩ := q
        rw [hp] at h
        dsimp only at h
        rcases apiPostStep_ok _ _ _ _ _ hp with ⟨-, hbq, htq⟩ | ⟨-, hbq, htq, -⟩
        · subst hbq
          subst htq
          exact ih _ _ _ _ _ h hD' hB' hP'
        · subst hbq
          subst htq
          refine ih _ _ _ _ _ h ?_ (by simp) ?_
          · intro s hs
            obtain ⟨u, d, hm⟩ := hD' s hs
            exact ⟨u, d, List.mem_append.mpr (Or.inl hm)⟩
          · exact delBeforePost_append_post _ _ hB' hP'

theorem apiWriteLoop_allOK (respond : HttpReq → Option Nat)
    (esc : String → String) (apiURL : String) :
    ∀ (items : List ApiItem) (del : List String) (batch : List ApiItem)
      (trace tr : List HttpReq),
    apiWriteLoop respond esc apiURL items del batch trace = (tr, false) →
    (∀ r ∈ trace, reqOK respond r) →
    ∀ r ∈ tr, reqOK respond r := by
  intro items
  induction items with
  | nil =>
    intro del batch trace tr h hok r hr
    rw [apiWriteLoop] at h
    cases hresp : respond (HttpReq.post batch) with
    | none => rw [hresp] at h; simp at h
    | some st =>
      rw [hresp] at h
      have h2 : (¬ st = 201 : Bool) = false := congrArg Prod.snd h
      have hst : st = 201 := by simpa using h2
      have h1 : trace ++ [HttpReq.post batch] = tr := congrArg Prod.fst h
      rw [← h1] at hr
      rcases List.mem_append.mp hr with h3 | h3
      · exact hok r h3
      · have : r = HttpReq.post batch := by simpa using h3
        subst this
        show respond (HttpReq.post batch) = some 201
        rw [hresp, hst]
  | cons item rest ih =>
    intro del batch trace tr h hok r hr
    rw [apiWriteLoop] at h
    cases hd : apiDeleteStep respond esc apiURL item del trace with
    | error tr0 => rw [hd] at h; simp at h
    | ok p =>
      obtain ⟨del', trace'⟩ := p
      rw [hd] at h
      dsimp only at h
      have hok' : ∀ r ∈ trace', reqOK respond r := by
        rcases apiDeleteStep_ok _ _ _ _ _ _ _ _ hd with
          ⟨-, -, htq⟩ | ⟨-, -, htq, hresp⟩
        · rw [htq]; exact hok
        · rw [htq]
          intro r2 hr2
          rcases List.mem_append.mp hr2 with h2 | h2
          · exact hok r2 h2
          · have : r2 = HttpReq.delete
                (mkDeleteURL esc apiURL item.sourceUrl item.dateFmt)
                item.sourceUrl item.dateFmt := by simpa using h2
            subst this
            exact hresp
      cases hp : apiPostStep respond (batch ++ [item]) trace' with
      | error tr0 => rw [hp] at h; simp at h
      | ok q =>
        obtain ⟨batch', trace''⟩ := q
        rw [hp] at h
        dsimp only at h
        have hok'' : ∀ r ∈ trace'', reqOK respond r := by
          rcases apiPostStep_ok _ _ _ _ _ hp with ⟨-, -, htq⟩ | ⟨-, -, htq, hresp⟩
          · rw [htq]; exact hok'
          · rw [htq]
            intro r2 hr2
            rcases List.mem_append.mp hr2 with h2 | h2
            · exact hok' r2 h2
            · have : r2 = HttpReq.post (batch ++ [item]) := by simpa using h2
              subst this
              exact hresp
        exact ih _ _ _ _ h hok'' r hr

/-- C9: over a complete (non-fatal) run of the API sink, every distinct
`sourceUrl` gets exactly one DELETE, keyed by the source and the
(UTC-formatted) date of the first record seen for that source; every
POST containing a record of a source is preceded by that source's
DELETE; the records are POSTed as batches of at most 100 items whose
concatenation is the input sequence in order; a completed run received
200 for every DELETE and 201 for every POST; and a network error, a
non-200 DELETE response or a non-201 POST response is fatal to the
sink. -/
theorem C9_apiSink :
    (∀ (respond : HttpReq → Option Nat) (esc : String → String)
        (apiURL : String) (items : List ApiItem) (tr : List HttpReq),
      apiWrite respond esc apiURL items = (tr, false) →
      postedItems tr = items) ∧
    (∀ (respond : HttpReq → Option Nat) (esc : String → String)
        (apiURL : String) (items : List ApiItem) (tr : List HttpReq)
        (fatal : Bool) (b : List ApiItem),
      apiWrite respond esc apiURL items = (tr, fatal) →
      HttpReq.post b ∈ tr → b.length ≤ 100) ∧
    (∀ (respond : HttpReq → Option Nat) (esc : String → String)
        (apiURL : String) (items : List ApiItem) (tr : List HttpReq),
      apiWrite respond esc apiURL items = (tr, false) →
      ∀ s, deletesFor s tr =
        (match items.find? (fun it => it.sourceUrl = s) with
         | some it =>
            [HttpReq.delete (mkDeleteURL esc apiURL s it.dateFmt) s it.dateFmt]
         | none => [])) ∧
    (∀ (respond : HttpReq → Option Nat) (esc : String → String)
        (apiURL : String) (items : List ApiItem) (tr : List HttpReq)
        (fatal : Bool),
      apiWrite respond esc apiURL items = (tr, fatal) →
      delBeforePost tr) ∧
    (∀ (respond : HttpReq → Option Nat) (esc : String → String)
        (apiURL : String) (items : List ApiItem) (tr : List HttpReq),
      apiWrite respond esc apiURL items = (tr, false) →
      ∀ r ∈ tr, reqOK respond r) ∧
    (∀ (respond : HttpReq → Option Nat) (esc : String → String)
        (apiURL : String) (item : ApiItem) (rest : List ApiItem)
        (del : List String) (batch : List ApiItem) (trace : List HttpReq),
      del.contains item.sourceUrl = false →
      (respond (HttpReq.delete
          (mkDeleteURL esc apiURL item.sourceUrl item.dateFmt)
          item.sourceUrl item.dateFmt) = none ∨
        ∃ st, respond (HttpReq.delete
          (mkDeleteURL esc apiURL item.sourceUrl item.dateFmt)
          item.sourceUrl item.dateFmt) = some st ∧ ¬ st = 200) →
      (apiWriteLoop respond esc apiURL (item :: rest) del batch trace).2 = true) ∧
    (∀ (respond : HttpReq → Option Nat) (esc : String → String)
        (apiURL : String) (del : List String) (batch : List ApiItem)
        (trace : List HttpReq),
      (respond (HttpReq.post batch) = none ∨
        ∃ st, respond (HttpReq.post batch) = some st ∧ ¬ st = 201) →
      (apiWriteLoop respond esc apiURL [] del batch trace).2 = true) := by
  refine ⟨?_, ?_, ?_, ?_, ?_, ?_, ?_⟩
  · intro respond esc apiURL items tr h
    have := apiWriteLoop_posted respond esc apiURL items [] [] [] tr h
    simpa [postedItems] using this
  · intro respond esc apiURL items tr fatal b h hb
    rcases apiWriteLoop_batch_le respond esc apiURL items [] [] [] tr fatal h
        (by simp) b hb with h2 | h2
    · exact absurd h2 (List.not_mem_nil _)
    · exact h2
  · intro respond esc apiURL items tr h s
    have := (apiWriteLoop_deletesFor respond esc apiURL items [] [] [] tr h s).2 rfl
    simpa [deletesFor] using this
  · intro respond esc apiURL items tr fatal h
    refine apiWriteLoop_pok respond esc apiURL items [] [] [] tr fatal h
      (fun s hs => absurd hs (by simp)) (by simp) ?_
    intro i b hib
    simp at hib
  · intro respond esc apiURL items tr h
    exact apiWriteLoop_allOK respond esc apiURL items [] [] [] tr h
      (by intro r hr; exact absurd hr (List.not_mem_nil r))
  · intro respond esc apiURL item rest del batch trace hcon hbad
    have herr : ∃ tr0,
        apiDeleteStep respond esc apiURL item del trace = .error tr0 := by
      unfold apiDeleteStep
      rw [if_neg (show ¬ del.contains item.sourceUrl = true by rw [hcon]; simp)]
      dsimp only
      rcases hbad with hb | ⟨st, hb, hst⟩
      · rw [hb]
        exact ⟨_, rfl⟩
      · rw [hb]
        dsimp only
        rw [if_neg hst]
        exact ⟨_, rfl⟩
    obtain ⟨tr0, herr⟩ := herr
    rw [apiWriteLoop, herr]
  · intro respond esc apiURL del batch trace hbad
    rw [apiWriteLoop]
    rcases hbad with hb | ⟨st, hb, hst⟩
    · rw [hb]
    · rw [hb]
      simp [hst]

/-- C9 witness: the three-item run over two sources issues exactly the
two DELETEs (keyed by each source's first date) followed by one POST of
all three items in order, and a 500 response to the first DELETE is
fatal. -/
theorem C9_apiSink_witness :
    postedItems [HttpReq.delete "http://api?sourceUrl=s1&datetime=d1" "s1" "d1",
      HttpReq.delete "http://api?sourceUrl=s2&datetime=d3" "s2" "d3",
      HttpReq.post itemsW] = itemsW ∧
    deletesFor "s1" [HttpReq.delete "http://api?sourceUrl=s1&datetime=d1" "s1" "d1",
      HttpReq.delete "http://api?sourceUrl=s2&datetime=d3" "s2" "d3",
      HttpReq.post itemsW]
      = [HttpReq.delete "http://api?sourceUrl=s1&datetime=d1" "s1" "d1"] ∧
    (apiWriteLoop respondBad (fun s => s) "u" itemsW [] [] []).2 = true := by
  refine ⟨?_, ?_, ?_⟩
  · exact C9_apiSink.1 respondOK (fun s => s) "http://api" itemsW _ (by decide)
  · have h := C9_apiSink.2.2.1 respondOK (fun s => s) "http://api" itemsW
      [HttpReq.delete "http://api?sourceUrl=s1&datetime=d1" "s1" "d1",
        HttpReq.delete "http://api?sourceUrl=s2&datetime=d3" "s2" "d3",
        HttpReq.post itemsW] (by decide) "s1"
    rw [h]
    decide
  · exact C9_apiSink.2.2.2.2.2.1 respondBad (fun s => s) "u" ⟨"s1", "d1"⟩
      [⟨"s1", "d2"⟩, ⟨"s2", "d3"⟩] [] [] [] rfl
      (Or.inr ⟨500, rfl, by decide⟩)

end Croncert
